import Mathlib

/-!
Verification development for the supplier-catalog pipeline in
`hash_comparativo.py`: extraction/normalisation of spreadsheet records,
the stock classifier, the price parser, the snapshot store, the diff
engine and the content-hash gate.

Python strings are modelled as `List Char`, python `float` values as `ℚ`
(float arithmetic in the pipeline is limited to subtraction/division in
the diff engine and string round-trips, which are exact at the modelled
precision), spreadsheet cells as an inductive `Value` (None / number /
text), and the ambient filesystem state (hash db, snapshot csv) as
explicit state records.
-/

set_option autoImplicit false

abbrev Str := List Char

/-- Python `str.strip()`: drop leading and trailing whitespace. -/
def strip (s : Str) : Str :=
  ((s.dropWhile Char.isWhitespace).reverse.dropWhile Char.isWhitespace).reverse

/-- Python `str.lower()` restricted to the characters the pipeline meets:
ASCII letters and the accented vowels that `_norm_text_lc` folds. -/
def pyLower (c : Char) : Char :=
  if 65 ≤ c.toNat ∧ c.toNat ≤ 90 then Char.ofNat (c.toNat + 32)
  else if c = 'Á' then 'á'
  else if c = 'É' then 'é'
  else if c = 'Í' then 'í'
  else if c = 'Ó' then 'ó'
  else if c = 'Ú' then 'ú'
  else c

/-- The accent folding chain in `_norm_text_lc`:
`.replace("ó","o").replace("í","i").replace("á","a").replace("é","e").replace("ú","u")`. -/
def foldAccent (c : Char) : Char :=
  if c = 'ó' then 'o'
  else if c = 'í' then 'i'
  else if c = 'á' then 'a'
  else if c = 'é' then 'e'
  else if c = 'ú' then 'u'
  else c

/-! ### Decimal digit strings

Machinery for python's `str(float)` / `float(str)` round trip, used by
`try_float`, the stock classifier and the snapshot csv. -/

def digitChar (d : ℕ) : Char := Char.ofNat (48 + d)

def digitVal (c : Char) : ℕ := c.toNat - 48

def isDig (c : Char) : Bool := decide (48 ≤ c.toNat ∧ c.toNat ≤ 57)

/-- Little-endian decimal digits of `n`; `fuel ≥ n` makes the recursion
structural. -/
def natToDigitsRev (fuel n : ℕ) : List ℕ :=
  match fuel with
  | 0 => []
  | fuel + 1 => if n = 0 then [] else (n % 10) :: natToDigitsRev fuel (n / 10)

/-- Big-endian decimal digit characters of `n` (python `str` of a
nonnegative integer). -/
def natDigits (n : ℕ) : Str :=
  if n = 0 then ['0'] else ((natToDigitsRev n n).map digitChar).reverse

/-- Value of a little-endian digit list. -/
def valLE : List ℕ → ℕ
  | [] => 0
  | d :: l => d + 10 * valLE l

/-- Value of a big-endian digit list. -/
def parseNatList (l : List ℕ) : ℕ := l.foldl (fun a d => 10 * a + d) 0

def parseNatChars (s : Str) : ℕ := parseNatList (s.map digitVal)

/-- Split a char list on every occurrence of `sep` (python `str.split`). -/
def splitOnChar (sep : Char) : Str → List Str
  | [] => [[]]
  | c :: r =>
    if c = sep then [] :: splitOnChar sep r
    else
      match splitOnChar sep r with
      | h :: t => (c :: h) :: t
      | [] => [[c]]

/-- The fragment of python `float(string)` that the pipeline's data can
produce: an optional sign, decimal digits, at most one decimal point.
(Exponent / underscore / infinity forms are outside the modelled data.) -/
def parseUnsigned (s : Str) : Option ℚ :=
  match splitOnChar '.' s with
  | [a] =>
      if a ≠ [] ∧ a.all isDig then some (parseNatChars a : ℚ) else Option.none
  | [a, b] =>
      if a ++ b ≠ [] ∧ a.all isDig ∧ b.all isDig then
        some ((parseNatChars a : ℚ) + (parseNatChars b : ℚ) / 10 ^ b.length)
      else Option.none
  | _ => Option.none

def pyFloat? (s : Str) : Option ℚ :=
  match s with
  | [] => Option.none
  | c :: r =>
    if c = '-' then (parseUnsigned r).map (fun q => -q)
    else if c = '+' then parseUnsigned r
    else parseUnsigned (c :: r)

/-- Least exponent `k ≤ d` with `d ∣ 10 ^ k`, when one exists. -/
def decExp (d : ℕ) : Option ℕ :=
  (List.range (d + 1)).find? (fun k => 10 ^ k % d == 0)

def padZeros (k : ℕ) (s : Str) : Str := List.replicate (k - s.length) '0' ++ s

/-- Python `str` of a float, at the ℚ level: the exact decimal expansion
of a decimal rational (every IEEE float is one), with python's trailing
`.0` on integral values.  Non-decimal rationals (unreachable from float
data) fall back to the integer part. -/
def floatRepr (q : ℚ) : Str :=
  let sign : Str := if q < 0 then ['-'] else []
  let n := q.num.natAbs
  let d := q.den
  match decExp d with
  | some k =>
    let scaled := n * 10 ^ k / d
    if k = 0 then sign ++ natDigits scaled ++ ['.', '0']
    else sign ++ natDigits (scaled / 10 ^ k) ++ '.' :: padZeros k (natDigits (scaled % 10 ^ k))
  | Option.none => sign ++ natDigits n

/-! ### Cell values and normalisation (`_norm_text`, `_norm_text_lc`, `try_float`) -/

/-- An openpyxl cell value as the pipeline reads it: python `None`, a
number, or text. -/
inductive Value where
  | blank
  | num (q : ℚ)
  | str (s : Str)
deriving DecidableEq

/-- `_norm_text`: `(str(s) if s is not None else "").strip()`.  Numbers
stringify via their decimal representation. -/
def normText : Value → Str
  | Value.blank => []
  | Value.num q => floatRepr q
  | Value.str s => strip s

/-- `_norm_text_lc`: lowercase then fold regional accented vowels. -/
def normTextLc (v : Value) : Str := ((normText v).map pyLower).map foldAccent

/-- `try_float`: on a string, strip, remove every `.`, turn `,` into `.`,
then `float(...)`; on a number, the number itself; `None` on failure. -/
def try_float : Value → Option ℚ
  | Value.blank => Option.none
  | Value.num q => some q
  | Value.str s => pyFloat? (((strip s).filter (fun c => !(c == '.'))).map
      (fun c => if c = ',' then '.' else c))

/-! ### Stock classifier (`convertir_stock_generico`) -/

def SIN_STOCK_SET : List Str :=
  ["sin stock".data, "sinstock".data, "sin-stock".data, "no".data, "0".data,
   "agotado".data, "sin".data]

def MENOR_SET : List Str :=
  ["menor a 5".data, "<5".data, "bajo".data, "consultar".data, "poco".data,
   "limitado".data]

def MAYOR_SET : List Str :=
  ["mayor a 5".data, ">5".data, "alto".data, "con stock".data, "constock".data,
   "en stock".data, "stock".data, "disponible".data, "si".data, "sí".data]

/-- `convertir_stock_generico`.  For text the source looks the normalised
string up in three fixed vocabularies and otherwise parses it as a number
(`float(t.replace(",", "."))`).  A numeric cell value goes through
`str(value)` and back through `float`, which is the identity on floats and
never lands in the vocabularies (python `str(float)` always contains a
`.`; `str(int)` equals `"0"` exactly when the value is 0, which the
numeric branch classifies identically), so the numeric case is modelled by
the numeric branch directly. -/
def convertir_stock_generico (valor : Value) : Option ℕ :=
  match valor with
  | Value.num q => if q ≤ 0 then some 0 else if 5 ≤ q then some 6 else some 2
  | _ =>
    let t := normTextLc valor
    if t ∈ SIN_STOCK_SET then some 0
    else if t ∈ MENOR_SET then some 2
    else if t ∈ MAYOR_SET then some 6
    else if t = [] then Option.none
    else
      match pyFloat? (t.map (fun c => if c = ',' then '.' else c)) with
      | Option.none => Option.none
      | some q => if q ≤ 0 then some 0 else if 5 ≤ q then some 6 else some 2

/-! ### Sheets and workbooks -/

/-- A worksheet: the rectangular region of cell values openpyxl exposes,
row-major and 1-indexed through `Sheet.cell`. -/
structure Sheet where
  title : Str
  rows : List (List Value)
deriving DecidableEq

/-- A workbook: `wb.worksheets` plus the index of `wb.active`. -/
structure Wb where
  sheets : List Sheet
  activeIdx : ℕ
deriving DecidableEq

/-- `ws.cell(row=r, column=c).value` (1-based, `None` outside the data). -/
def Sheet.cell (ws : Sheet) (r c : ℕ) : Value :=
  (ws.rows.getD (r - 1) []).getD (c - 1) Value.blank

/-- `ws.max_row or 1`. -/
def maxRowOr1 (ws : Sheet) : ℕ := max ws.rows.length 1

/-- Pad or truncate a row to exactly `m` leading columns
(`iter_rows(..., min_col=1, max_col=m, values_only=True)`). -/
def padTo (m : ℕ) (row : List Value) : List Value :=
  (List.range m).map (fun i => row.getD i Value.blank)

/-- `ws.iter_rows(min_row=minRow, min_col=1, max_col=maxCol, values_only=True)`. -/
def iterRows (ws : Sheet) (minRow maxCol : ℕ) : List (List Value) :=
  (ws.rows.drop (minRow - 1)).map (padTo maxCol)

/-! ### Header detection (`detectar_columnas`) -/

def CAND_COD : List Str :=
  ["codigo".data, "código".data, "cod".data, "id".data, "articulo".data,
   "artículo".data, "sku".data, "modelo".data]

def CAND_STOCK : List Str :=
  ["stock".data, "estado".data, "disponibilidad".data, "disponible".data]

def CAND_PREC : List Str :=
  ["precio".data, "p. lista".data, "p lista".data, "plista".data, "lista".data,
   "price".data, "valor".data]

def CAND_MON : List Str := ["moneda".data, "currency".data, "divisa".data]

/-- The `tmp` dict of `detectar_columnas`: 1-based column index per field. -/
structure Cols where
  codigo : Option ℕ
  stock : Option ℕ
  precio : Option ℕ
  moneda : Option ℕ
deriving DecidableEq

def Cols.empty : Cols := ⟨Option.none, Option.none, Option.none, Option.none⟩

/-- One pass of the inner cell loop of `detectar_columnas`: first-match-wins
per field, with the source's `if`/`elif` priority codigo, precio, moneda,
stock. -/
def scanRowAux (ci : ℕ) : List Value → Cols → Cols
  | [], t => t
  | v :: r, t =>
    let h := normTextLc v
    let t' :=
      if h = [] then t
      else if t.codigo = Option.none ∧ h ∈ CAND_COD then { t with codigo := some ci }
      else if t.precio = Option.none ∧ h ∈ CAND_PREC then { t with precio := some ci }
      else if t.moneda = Option.none ∧ h ∈ CAND_MON then { t with moneda := some ci }
      else if t.stock = Option.none ∧ h ∈ CAND_STOCK then { t with stock := some ci }
      else t
    scanRowAux (ci + 1) r t'

def detectarAux : ℕ → List (List Value) → Option ℕ × Cols
  | _, [] => (Option.none, Cols.empty)
  | ri, row :: rest =>
    let t := scanRowAux 1 row Cols.empty
    if t.codigo.isSome then (some ri, t) else detectarAux (ri + 1) rest

/-- `detectar_columnas(ws, max_scan_rows=60)`: first row (within the scan
window) in which a codigo column is identified. -/
def detectarColumnas (ws : Sheet) : Option ℕ × Cols :=
  detectarAux 1 (ws.rows.take 60)

/-- `max(v for v in cols.values() if v)` (codigo is always set at use sites,
so the absent fields' 0 never wins). -/
def maxNeededCol (c : Cols) : ℕ :=
  max (max (c.codigo.getD 0) (c.stock.getD 0)) (max (c.precio.getD 0) (c.moneda.getD 0))

/-- `row[cols[f]-1] if cols[f] else None`. -/
def colVal (row : List Value) (c : Option ℕ) : Value :=
  match c with
  | some i => row.getD (i - 1) Value.blank
  | Option.none => Value.blank

/-! ### Best-sheet choice (`elegir_hoja_stock`) -/

/-- Rows with a non-empty codigo below a detected header row. -/
def contarFilas (ws : Sheet) (headerRow : ℕ) (cols : Cols) : ℕ :=
  (iterRows ws (headerRow + 1) (maxNeededCol cols)).countP
    (fun row => !(normText (colVal row cols.codigo)).isEmpty)

/-- Rows from `fila_inicio_hint` whose first column is non-empty. -/
def fallbackCount (ws : Sheet) (hint : ℕ) : ℕ :=
  (List.range' hint (maxRowOr1 ws + 1 - hint)).countP
    (fun r => !(normText (ws.cell r 1)).isEmpty)

inductive Modo where
  | encabezados
  | fallback
deriving DecidableEq

/-- A candidate selection `(ws, modo, header_row, cols)`. -/
structure Chosen where
  sheet : Sheet
  modo : Modo
  headerRow : ℕ
  cols : Cols
deriving DecidableEq

/-- The candidate one sheet contributes to `elegir_hoja_stock`, with its
useful-row count. -/
def scoreInfo (hint colHint : ℕ) (ws : Sheet) : Chosen × ℕ :=
  match detectarColumnas ws with
  | (some hr, cols) =>
    if cols.codigo.isSome then (⟨ws, Modo.encabezados, hr, cols⟩, contarFilas ws hr cols)
    else (⟨ws, Modo.fallback, hint,
            ⟨some 1, some colHint, Option.none, Option.none⟩⟩, fallbackCount ws hint)
  | (Option.none, _) =>
    (⟨ws, Modo.fallback, hint,
       ⟨some 1, some colHint, Option.none, Option.none⟩⟩, fallbackCount ws hint)

/-- One step of the `elegir_hoja_stock` scan: replace the best candidate
iff this sheet's count is strictly larger. -/
def elegirStep (hint colHint : ℕ) (best : Option Chosen × ℕ) (ws : Sheet) :
    Option Chosen × ℕ :=
  let sc := scoreInfo hint colHint ws
  if best.2 < sc.2 then (some sc.1, sc.2) else best

/-- `elegir_hoja_stock`: scan every sheet, keep the first one attaining the
strictly largest useful-row count; `(None, …, 0)` when all counts are 0. -/
def elegirHojaStock (wb : Wb) (hint colHint : ℕ) : Option Chosen × ℕ :=
  wb.sheets.foldl (elegirStep hint colHint) (Option.none, 0)

/-! ### Record extraction -/

/-- A "Hoja 1" record `{"ID", "Stock", "Precio", "Moneda"}`. -/
structure RegH1 where
  id : Str
  stock : Option ℕ
  precio : Option ℚ
  moneda : Option Str
deriving DecidableEq

/-- `_norm_text(moneda) or None`. -/
def mkMoneda (v : Value) : Option Str :=
  let m := normText v
  if m = [] then Option.none else some m

/-- The body of the per-row loop in `extraer_registros_con_stock_auto`
(encabezados mode): skip empty codigo, otherwise build the record. -/
def rowToRegH1 (cols : Cols) (row : List Value) : Option RegH1 :=
  let cod := normText (colVal row cols.codigo)
  if cod = [] then Option.none
  else some ⟨cod, convertir_stock_generico (colVal row cols.stock),
             try_float (colVal row cols.precio), mkMoneda (colVal row cols.moneda)⟩

/-- `extraer_registros_con_stock_auto`: pick the best sheet, then extract
every row with a non-empty code (headers mode) or a non-empty first column
(fallback mode). -/
def extraerRegistrosConStockAuto (wb : Wb) (filaHint colHint : ℕ) : List RegH1 :=
  match elegirHojaStock wb filaHint colHint with
  | (Option.none, _) => []
  | (some ch, _) =>
    match ch.modo with
    | Modo.encabezados =>
      (iterRows ch.sheet (ch.headerRow + 1) (maxNeededCol ch.cols)).filterMap
        (rowToRegH1 ch.cols)
    | Modo.fallback =>
      (List.range' filaHint (maxRowOr1 ch.sheet + 1 - filaHint)).filterMap
        (fun r =>
          let cod := normText (ch.sheet.cell r 1)
          if cod = [] then Option.none
          else some ⟨cod,
                     convertir_stock_generico
                       (if colHint = 0 then Value.blank else ch.sheet.cell r colHint),
                     Option.none, Option.none⟩)

/-- The F/T mirror loop shared verbatim by `extraer_tevelam_hoja1` and
`extraer_disco_hoja1`: each record whose id has length ≥ 2 and starts with
`F` (resp. `T`) also yields a copy with the prefix swapped, same
stock/price/currency. -/
def mirrorOf (r : RegH1) : List RegH1 :=
  match r.id with
  | 'F' :: c :: rest => [⟨'T' :: c :: rest, r.stock, r.precio, r.moneda⟩]
  | 'T' :: c :: rest => [⟨'F' :: c :: rest, r.stock, r.precio, r.moneda⟩]
  | _ => []

def espejarFT (base : List RegH1) : List RegH1 :=
  base.flatMap (fun r => r :: mirrorOf r)

/-- `extraer_tevelam_hoja1` (auto extraction with hints 11/9, then mirror). -/
def extraerTevelamHoja1 (wb : Wb) : List RegH1 :=
  espejarFT (extraerRegistrosConStockAuto wb 11 9)

/-- `extraer_disco_hoja1` (auto extraction with hints 9/7, then mirror). -/
def extraerDiscoHoja1 (wb : Wb) : List RegH1 :=
  espejarFT (extraerRegistrosConStockAuto wb 9 7)

/-! ### IMSA extraction and id truncation -/

/-- `breakAt sep s = some (a, b)` splits `s` at the first `sep`
(`s = a ++ sep :: b`, `sep ∉ a`); `none` when `sep` does not occur. -/
def breakAt (sep : Char) : Str → Option (Str × Str)
  | [] => Option.none
  | c :: r =>
    if c = sep then some ([], r)
    else (breakAt sep r).map (fun p => (c :: p.1, p.2))

/-- Python `s.split(sep, maxsplit)`. -/
def splitMax (sep : Char) : ℕ → Str → List Str
  | 0, s => [s]
  | n + 1, s =>
    match breakAt sep s with
    | Option.none => [s]
    | some (a, b) => a :: splitMax sep n b

/-- IMSA id truncation:
`s_cod.split("-", 2)[-1] if s_cod.count("-") >= 2 else s_cod`. -/
def codFinal (s : Str) : Str :=
  if 2 ≤ s.count '-' then (splitMax '-' 2 s).getLastD [] else s

/-- The id the spec's words describe: the substring after the LAST hyphen.
Declared only to compare against the source's `codFinal`. -/
def specLastSegment (s : Str) : Str := (s.reverse.takeWhile (fun c => !(c == '-'))).reverse

/-- The per-row loop of `extraer_imsa_hoja1`: like `rowToRegH1` but with
the id truncated through `codFinal`. -/
def rowToRegImsa (cols : Cols) (row : List Value) : Option RegH1 :=
  let cod := normText (colVal row cols.codigo)
  if cod = [] then Option.none
  else some ⟨codFinal cod, convertir_stock_generico (colVal row cols.stock),
             try_float (colVal row cols.precio), mkMoneda (colVal row cols.moneda)⟩

/-- The last-resort scan of `extraer_imsa_hoja1`: non-empty first-column
cells in rows 8..max_row. -/
def imsaFallbackCount (ws : Sheet) : ℕ :=
  (List.range' 8 (maxRowOr1 ws + 1 - 8)).countP
    (fun r => !(normText (ws.cell r 1)).isEmpty)

/-- `extraer_imsa_hoja1`: the FIRST sheet with a detected header (the loop
breaks on the first hit, it does not compare row counts); failing that, the
first sheet whose fallback count exceeds 10, read with header_row 7 and
fixed columns codigo=1, stock=8. -/
def extraerImsaHoja1 (wb : Wb) : List RegH1 :=
  match wb.sheets.find? (fun ws => (detectarColumnas ws).1.isSome) with
  | some ws =>
    let hc := detectarColumnas ws
    (iterRows ws (hc.1.getD 0 + 1) (maxNeededCol hc.2)).filterMap (rowToRegImsa hc.2)
  | Option.none =>
    match wb.sheets.find? (fun ws => decide (10 < imsaFallbackCount ws)) with
    | some ws =>
      (iterRows ws 8 8).filterMap
        (rowToRegImsa ⟨some 1, some 8, Option.none, Option.none⟩)
    | Option.none => []

/-! ### Diff engine (`calcular_diffs`) -/

/-- A diff-extractor record `{"ID", "Precio", "Moneda"}`. -/
structure Reg where
  id : Str
  precio : Option ℚ
  moneda : Option Str
deriving DecidableEq

/-- A previous-snapshot entry: id to (Precio, Moneda). -/
abbrev SnapVal := Option ℚ × Option Str

/-- A python dict keyed by id, as an association list (unique keys). -/
abbrev Snap := List (Str × SnapVal)

/-- Dict lookup. -/
def lookupA {β : Type} (m : List (Str × β)) (k : Str) : Option β :=
  (m.find? (fun p => decide (p.1 = k))).map Prod.snd

/-- Dict assignment `m[k] = v`: overwrite in place, else append. -/
def updateAssoc {β : Type} (m : List (Str × β)) (k : Str) (v : β) : List (Str × β) :=
  if m.any (fun p => decide (p.1 = k)) then
    m.map (fun p => if p.1 = k then (k, v) else p)
  else m ++ [(k, v)]

/-- `{r["ID"]: r for r in curr_regs if r.get("ID")}`. -/
def buildCurrMap (regs : List Reg) : List (Str × Reg) :=
  regs.foldl (fun m r => if r.id ≠ [] then updateAssoc m r.id r else m) []

/-- Lexicographic-by-code order on char lists (python string `sorted`).
Only its permutation property matters to the pipeline's semantics. -/
def ltStr : Str → Str → Bool
  | [], [] => false
  | [], _ :: _ => true
  | _ :: _, [] => false
  | a :: as, b :: bs =>
    if a.toNat < b.toNat then true
    else if a.toNat = b.toNat then ltStr as bs
    else false

def insertSorted (x : Str) : List Str → List Str
  | [] => [x]
  | y :: r => if ltStr y x then y :: insertSorted x r else x :: y :: r

/-- `sorted(...)` on a list of ids. -/
def sortStr (l : List Str) : List Str := l.foldr insertSorted []

/-- A price-change row `[_id, mon, p_old, p_new, delta, delta_pct]`. -/
structure DiffRow where
  id : Str
  mon : Option Str
  pOld : ℚ
  pNew : ℚ
  delta : ℚ
  deltaPct : Option ℚ
deriving DecidableEq

/-- A new/removed row `[_id, moneda, precio]`. -/
structure ItemRow where
  id : Str
  mon : Option Str
  precio : Option ℚ
deriving DecidableEq

/-- Python `a or b` on currency fields (both `None` and `""` are falsy). -/
def pyOrMon (a b : Option Str) : Option Str :=
  match a with
  | some s => if s = [] then b else some s
  | Option.none => b

/-- One iteration of the loop over `comunes` in `calcular_diffs`: `None`
when either side's price is missing or the price is unchanged, else the
`[_id, mon, p_old, p_new, delta, delta_pct]` row. -/
def commonRow (prevSnap : Snap) (currMap : List (Str × Reg)) (i : Str) : Option DiffRow :=
  match (lookupA prevSnap i).bind Prod.fst, (lookupA currMap i).bind Reg.precio with
  | some po, some pn =>
    if pn = po then Option.none
    else
      some ⟨i,
            pyOrMon ((lookupA currMap i).bind Reg.moneda)
                    ((lookupA prevSnap i).bind Prod.snd),
            po, pn, pn - po,
            if po = 0 then Option.none else some ((pn - po) / po * 100)⟩
  | _, _ => Option.none

/-- The loop over `comunes` in `calcular_diffs`: skip when either price is
missing or unchanged; otherwise the row lands in the up list iff its delta
is > 0, else in the down list. -/
def diffComunes (prevSnap : Snap) (currMap : List (Str × Reg)) :
    List Str → List DiffRow × List DiffRow
  | [] => ([], [])
  | i :: rest =>
    let res := diffComunes prevSnap currMap rest
    match commonRow prevSnap currMap i with
    | some row => if 0 < row.delta then (row :: res.1, res.2) else (res.1, row :: res.2)
    | Option.none => res

/-- `prev_ids = set(prev_snap.keys())`. -/
def prevIdsOf (prevSnap : Snap) : List Str := prevSnap.map Prod.fst

/-- `curr_ids = set(curr_map.keys())`. -/
def currIdsOf (currRegs : List Reg) : List Str := (buildCurrMap currRegs).map Prod.fst

/-- `nuevos_ids = sorted(curr_ids - prev_ids)`. -/
def nuevosIdsOf (prevSnap : Snap) (currRegs : List Reg) : List Str :=
  sortStr ((currIdsOf currRegs).filter (fun i => decide (i ∉ prevIdsOf prevSnap)))

/-- `elim_ids = sorted(prev_ids - curr_ids)`. -/
def elimIdsOf (prevSnap : Snap) (currRegs : List Reg) : List Str :=
  sortStr ((prevIdsOf prevSnap).filter (fun i => decide (i ∉ currIdsOf currRegs)))

/-- `comunes = sorted(curr_ids & prev_ids)`. -/
def comunesOf (prevSnap : Snap) (currRegs : List Reg) : List Str :=
  sortStr ((currIdsOf currRegs).filter (fun i => decide (i ∈ prevIdsOf prevSnap)))

/-- A `nuevos` row `[_id, c.get("Moneda"), c.get("Precio")]`. -/
def nuevoRow (currMap : List (Str × Reg)) (i : Str) : ItemRow :=
  match lookupA currMap i with
  | some c => ItemRow.mk i c.moneda c.precio
  | Option.none => ItemRow.mk i Option.none Option.none

/-- An `eliminados` row `[_id, p.get("Moneda"), p.get("Precio")]`. -/
def elimRow (prevSnap : Snap) (i : Str) : ItemRow :=
  match lookupA prevSnap i with
  | some p => ItemRow.mk i p.2 p.1
  | Option.none => ItemRow.mk i Option.none Option.none

/-- `calcular_diffs(prev_snap, curr_regs)`. -/
def calcularDiffs (prevSnap : Snap) (currRegs : List Reg) :
    List DiffRow × List DiffRow × List ItemRow × List ItemRow :=
  ((diffComunes prevSnap (buildCurrMap currRegs) (comunesOf prevSnap currRegs)).1,
   (diffComunes prevSnap (buildCurrMap currRegs) (comunesOf prevSnap currRegs)).2,
   (nuevosIdsOf prevSnap currRegs).map (nuevoRow (buildCurrMap currRegs)),
   (elimIdsOf prevSnap currRegs).map (elimRow prevSnap))

/-- The four diff lists, as handed to the report builder. -/
structure DiffLists where
  up : List DiffRow
  dn : List DiffRow
  nuevos : List ItemRow
  elim : List ItemRow
deriving DecidableEq

/-- `hay_cambios`. -/
def hayCambios (d : DiffLists) : Bool :=
  !(d.up.isEmpty && d.dn.isEmpty && d.nuevos.isEmpty && d.elim.isEmpty)

/-! ### Snapshot store (`guardar_snapshot` / `cargar_snapshot`)

The csv layer is modelled at the field level: a snapshot file is the list
of its rows, each row the list of its fields (csv writing/parsing of
well-quoted fields is mutually inverse).  `csv.writer` stringifies `None`
as the empty field and a float through `str`. -/

def serPrecio : Option ℚ → Str
  | Option.none => []
  | some q => floatRepr q

def serMon : Option Str → Str
  | Option.none => []
  | some s => s

/-- `guardar_snapshot`: header row then one `[ID, Precio, Moneda]` row per
record. -/
def guardarSnapshot (regs : List Reg) : List (List Str) :=
  ["ID".data, "Precio".data, "Moneda".data] ::
    regs.map (fun r => [r.id, serPrecio r.precio, serMon r.moneda])

/-- `float(row["Precio"]) if row["Precio"] not in (None, "", "None") else
None`, with the conversion failure caught to `None`. -/
def parsePrecioField (s : Str) : Option ℚ :=
  if s = [] ∨ s = "None".data then Option.none else pyFloat? s

/-- `row.get("Moneda") or None`. -/
def parseMonField (s : Str) : Option Str :=
  if s = [] then Option.none else some s

/-- `cargar_snapshot`: empty dict when the file is absent, else one dict
entry per data row (`DictReader` maps the fields written by
`guardar_snapshot` positionally under its header). -/
def cargarSnapshot : Option (List (List Str)) → Snap
  | Option.none => []
  | some rows =>
    (rows.drop 1).foldl
      (fun data row =>
        updateAssoc data (row.getD 0 [])
          (parsePrecioField (row.getD 1 []), parseMonField (row.getD 2 [])))
      []

/-! ### Content-hash gate and per-source run -/

/-- A downloaded file: its byte content (the only part the gate reads). -/
structure File where
  bytes : List ℕ
deriving DecidableEq

/-- The persisted per-source state: content hash and snapshot csv. -/
structure SourceState where
  hash : Option Str
  snap : Option (List (List Str))
deriving DecidableEq

/-- `decide_should_process`, state-passing over the persisted hash: no
file means "do not process"; an equal hash means "do not process" (state
unchanged); otherwise the new hash is persisted immediately and the
answer is "process".  `hashFn` stands for SHA-256 over the file bytes; the
gate uses only that it is a function of the content. -/
def decideShouldProcess (hashFn : List ℕ → Str) (prevHash : Option Str)
    (file : Option File) : Bool × Option Str :=
  match file with
  | Option.none => (false, prevHash)
  | some f =>
    let newHash := hashFn f.bytes
    if prevHash = some newHash then (false, prevHash)
    else (true, some newHash)

/-- The outcome of one `run_fuente` call. -/
structure RunOutcome where
  processed : Bool
  report : Option DiffLists
deriving DecidableEq

/-- `run_fuente`: gate, then Hoja 1 (no persisted-state effect), then the
diff block.  Each extractor is a parameter returning `Except` (a raised
exception is caught per block in the source); a failing diff extraction
skips both the diff and the snapshot write, but the hash was already
persisted by the gate. -/
def runFuente (hashFn : List ℕ → Str)
    (extractorDiffs : File → Except Unit (List Reg))
    (_extractorH1 : File → Except Unit (List RegH1))
    (st : SourceState) (file : Option File) : SourceState × RunOutcome :=
  match file with
  | Option.none => (st, ⟨false, Option.none⟩)
  | some f =>
    match decideShouldProcess hashFn st.hash (some f) with
    | (false, _) => (st, ⟨false, Option.none⟩)
    | (true, newHash) =>
      let st1 : SourceState := { st with hash := newHash }
      match extractorDiffs f with
      | Except.error _ => (st1, ⟨true, Option.none⟩)
      | Except.ok regs =>
        let prev := cargarSnapshot st1.snap
        let d4 := calcularDiffs prev regs
        let d : DiffLists := ⟨d4.1, d4.2.1, d4.2.2.1, d4.2.2.2⟩
        let rep := if hayCambios d then some d else Option.none
        ({ st1 with snap := some (guardarSnapshot regs) }, ⟨true, rep⟩)

/-! ## Claims -/

/-! ### C8: price parsing -/

/-- C8: `try_float` maps `"1.234,56"` to `1234.56`, `"1234,5"` to `1234.5`
and `"1.234"` to `1234` (the single dot removed as a thousands separator),
and an unconvertible input such as `"abc"` yields `None` (the conversion
failure is caught, nothing propagates: the function is total with an
`Option` result). -/
theorem c8_try_float_ok :
    try_float (Value.str "1.234,56".data) = some (1234.56 : ℚ) ∧
    try_float (Value.str "1234,5".data) = some (1234.5 : ℚ) ∧
    try_float (Value.str "1.234".data) = some 1234 ∧
    try_float (Value.str "abc".data) = Option.none := by
  refine ⟨?_, ?_, ?_, ?_⟩
  · have h : try_float (Value.str "1.234,56".data)
        = some (((1234 : ℕ) : ℚ) + ((56 : ℕ) : ℚ) / 10 ^ (2 : ℕ)) := rfl
    rw [h]; norm_num
  · have h : try_float (Value.str "1234,5".data)
        = some (((1234 : ℕ) : ℚ) + ((5 : ℕ) : ℚ) / 10 ^ (1 : ℕ)) := rfl
    rw [h]; norm_num
  · have h : try_float (Value.str "1.234".data) = some (((1234 : ℕ) : ℚ)) := rfl
    rw [h]; norm_num
  · rfl

/-! ### C2: gate idempotence -/

/-- C2: for any hash function, prior persisted hash and (possibly absent)
file, running `decide_should_process` a second time on byte-identical
content always answers "do not process": the first run either found the
hash equal (leaving the store as it was, already equal) or persisted the
new hash, so the second comparison is an equality either way. -/
theorem c2_gate_idempotent (hashFn : List ℕ → Str) (st : Option Str)
    (f : Option File) :
    (decideShouldProcess hashFn (decideShouldProcess hashFn st f).2 f).1 = false := by
  cases f with
  | none => rfl
  | some f =>
    by_cases h : st = some (hashFn f.bytes) <;>
      simp [decideShouldProcess, h]

/-! ### C4: IMSA id truncation -/

theorem breakAt_some_spec (sep : Char) :
    ∀ s a b : Str, breakAt sep s = some (a, b) → s = a ++ sep :: b ∧ sep ∉ a := by
  intro s
  induction s with
  | nil => intro a b h; exact absurd h (by simp [breakAt])
  | cons c r ih =>
    intro a b h
    rw [breakAt] at h
    by_cases hc : c = sep
    · rw [if_pos hc] at h
      have h' := Option.some.inj h
      have ha : a = [] := (congrArg Prod.fst h').symm
      have hb : b = r := (congrArg Prod.snd h').symm
      subst ha; subst hb; subst hc
      exact ⟨rfl, by simp⟩
    · rw [if_neg hc] at h
      cases hbr : breakAt sep r with
      | none => rw [hbr] at h; exact absurd h (by simp)
      | some p =>
        obtain ⟨a1, b1⟩ := p
        rw [hbr, Option.map_some'] at h
        have h' := Option.some.inj h
        have ha : a = c :: a1 := (congrArg Prod.fst h').symm
        have hb : b = b1 := (congrArg Prod.snd h').symm
        subst ha; subst hb
        obtain ⟨hs, hna⟩ := ih a1 b hbr
        constructor
        · rw [List.cons_append, ← hs]
        · intro hmem
          rcases List.mem_cons.mp hmem with h1 | h2
          · exact hc h1.symm
          · exact hna h2

theorem breakAt_none_spec (sep : Char) :
    ∀ s : Str, breakAt sep s = Option.none → sep ∉ s := by
  intro s
  induction s with
  | nil => intro _; simp
  | cons c r ih =>
    intro h
    rw [breakAt] at h
    by_cases hc : c = sep
    · rw [if_pos hc] at h; exact absurd h (by simp)
    · rw [if_neg hc] at h
      intro hmem
      rcases List.mem_cons.mp hmem with h1 | h2
      · exact hc h1.symm
      · cases hbr : breakAt sep r with
        | none => exact ih hbr h2
        | some p => rw [hbr, Option.map_some'] at h; exact absurd h (by simp)

/-- What the source's `split("-", 2)[-1]` keeps when the code has at least
two hyphens: the substring after the SECOND hyphen. -/
def afterHyphen (s : Str) : Str :=
  match breakAt '-' s with
  | some p => p.2
  | Option.none => []

theorem splitMax2_getLast (s : Str) (h : 2 ≤ s.count '-') :
    (splitMax '-' 2 s).getLastD [] = afterHyphen (afterHyphen s) := by
  cases h1 : breakAt '-' s with
  | none =>
    exfalso
    have hnm := breakAt_none_spec '-' s h1
    have : s.count '-' = 0 := List.count_eq_zero.mpr hnm
    omega
  | some p =>
    obtain ⟨a, b⟩ := p
    obtain ⟨hs, hna⟩ := breakAt_some_spec '-' s a b h1
    have hcount : b.count '-' + 1 = s.count '-' := by
      rw [hs, List.count_append, List.count_cons]
      have hza : a.count '-' = 0 := List.count_eq_zero.mpr hna
      simp [hza]
    cases h2 : breakAt '-' b with
    | none =>
      exfalso
      have hnm := breakAt_none_spec '-' b h2
      have : b.count '-' = 0 := List.count_eq_zero.mpr hnm
      omega
    | some p2 =>
      obtain ⟨a2, b2⟩ := p2
      simp [splitMax, h1, h2, afterHyphen]

/-- C4 (amended): for the IMSA extractors' id truncation, a code with two
or more hyphens keeps exactly the substring after the SECOND hyphen — the
first two hyphen-separated segments are discarded, later hyphens survive —
and a code with fewer than two hyphens is kept whole.  (The spec's
"substring after the last hyphen" agrees only when the code has exactly
two hyphens.) -/
theorem c4_truncation_amended (s : Str) :
    (2 ≤ s.count '-' → codFinal s = afterHyphen (afterHyphen s)) ∧
    (s.count '-' < 2 → codFinal s = s) := by
  constructor
  · intro h
    rw [codFinal, if_pos h]
    exact splitMax2_getLast s h
  · intro h
    rw [codFinal, if_neg (by omega)]

/-- C4 witness: the amended truncation evaluated at a concrete code. -/
theorem c4_truncation_amended_witness :
    codFinal "A-B-C-D".data = afterHyphen (afterHyphen "A-B-C-D".data) :=
  (c4_truncation_amended "A-B-C-D".data).1 (by decide)

/-- The one-sheet workbook of the C4 counterexample: a detected header and
a single code `A-B-C-D` with three hyphens. -/
def wbC4 : Wb :=
  ⟨[⟨"x".data, [[Value.str "codigo".data], [Value.str "A-B-C-D".data]]⟩], 0⟩

/-- C4 counterexample: on the code `A-B-C-D` the IMSA extractor keeps
`C-D` (after the second hyphen), not the substring after the last hyphen
`D` as the claim states. -/
theorem c4_truncation_cex :
    (extraerImsaHoja1 wbC4).map RegH1.id = ["C-D".data] ∧
    specLastSegment "A-B-C-D".data = "D".data ∧
    "C-D".data ≠ "D".data := by
  refine ⟨?_, ?_, ?_⟩ <;> decide

/-! ### C7: best-sheet selection -/

theorem elegir_foldl_ge_init (hint colHint : ℕ) (l : List Sheet)
    (best : Option Chosen × ℕ) :
    best.2 ≤ (l.foldl (elegirStep hint colHint) best).2 := by
  induction l generalizing best with
  | nil => exact le_refl _
  | cons ws rest ih =>
    rw [List.foldl_cons]
    refine le_trans ?_ (ih (elegirStep hint colHint best ws))
    rw [elegirStep]
    split
    · omega
    · exact le_refl _

theorem elegir_foldl_ge_mem (hint colHint : ℕ) (l : List Sheet)
    (best : Option Chosen × ℕ) (ws : Sheet) (hmem : ws ∈ l) :
    (scoreInfo hint colHint ws).2 ≤ (l.foldl (elegirStep hint colHint) best).2 := by
  induction l generalizing best with
  | nil => cases hmem
  | cons hd rest ih =>
    rw [List.foldl_cons]
    rcases List.mem_cons.mp hmem with h1 | h2
    · subst h1
      refine le_trans ?_ (elegir_foldl_ge_init hint colHint rest _)
      rw [elegirStep]
      split
      · exact le_refl _
      · omega
    · exact ih _ h2

theorem elegir_foldl_some_src (hint colHint : ℕ) (l : List Sheet) :
    ∀ best : Option Chosen × ℕ, ∀ ch : Chosen,
      (l.foldl (elegirStep hint colHint) best).1 = some ch →
      (best = (some ch, (l.foldl (elegirStep hint colHint) best).2)) ∨
      ∃ ws ∈ l, scoreInfo hint colHint ws = (ch, (l.foldl (elegirStep hint colHint) best).2) := by
  induction l with
  | nil =>
    intro best ch h
    exact Or.inl (Prod.ext h rfl)
  | cons hd rest ih =>
    intro best ch h
    rw [List.foldl_cons] at h ⊢
    rcases ih (elegirStep hint colHint best hd) ch h with h1 | h2
    · by_cases hlt : best.2 < (scoreInfo hint colHint hd).2
      · have hstep : elegirStep hint colHint best hd
            = (some (scoreInfo hint colHint hd).1, (scoreInfo hint colHint hd).2) := by
          simp only [elegirStep]
          rw [if_pos hlt]
        rw [hstep] at h1 ⊢
        refine Or.inr ⟨hd, List.mem_cons_self hd rest, ?_⟩
        have hfst : (scoreInfo hint colHint hd).1 = ch :=
          Option.some.inj (congrArg Prod.fst h1)
        have hsnd := congrArg Prod.snd h1
        exact Prod.ext hfst hsnd
      · have hstep : elegirStep hint colHint best hd = best := by
          simp only [elegirStep]
          rw [if_neg hlt]
        rw [hstep] at h1 ⊢
        exact Or.inl h1
    · obtain ⟨ws, hw, hsc⟩ := h2
      exact Or.inr ⟨ws, List.mem_cons_of_mem hd hw, hsc⟩

theorem elegir_foldl_none (hint colHint : ℕ) (l : List Sheet) :
    ∀ best : Option Chosen × ℕ,
      (l.foldl (elegirStep hint colHint) best).1 = Option.none →
      l.foldl (elegirStep hint colHint) best = best := by
  induction l with
  | nil => intro best _; rfl
  | cons hd rest ih =>
    intro best h
    rw [List.foldl_cons] at h ⊢
    have hstep := ih (elegirStep hint colHint best hd) h
    rw [hstep] at h ⊢
    by_cases hlt : best.2 < (scoreInfo hint colHint hd).2
    · exfalso
      simp only [elegirStep, if_pos hlt] at h
      exact absurd h (by simp)
    · simp only [elegirStep, if_neg hlt]

/-- C7 (amended): `elegir_hoja_stock` — the sheet chooser behind the
stock-availability extractors — does return a candidate whose useful-row
count (non-empty codes under the detected, else fallback, schema) is
maximal over all sheets of the workbook, and the candidate does come from
one of the workbook's sheets with exactly that count.  The IMSA
availability extractor, by contrast, takes the FIRST sheet with a
detected header regardless of counts (see the counterexample). -/
theorem c7_best_sheet_amended (wb : Wb) (hint colHint : ℕ) :
    (∀ ws ∈ wb.sheets,
       (scoreInfo hint colHint ws).2 ≤ (elegirHojaStock wb hint colHint).2) ∧
    (∀ ch, (elegirHojaStock wb hint colHint).1 = some ch →
       ∃ ws ∈ wb.sheets,
         scoreInfo hint colHint ws = (ch, (elegirHojaStock wb hint colHint).2)) := by
  constructor
  · intro ws hmem
    exact elegir_foldl_ge_mem hint colHint wb.sheets (Option.none, 0) ws hmem
  · intro ch h
    rcases elegir_foldl_some_src hint colHint wb.sheets (Option.none, 0) ch h with h1 | h2
    · exact absurd (congrArg Prod.fst h1) (by simp)
    · exact h2

/-- First sheet of the C7 counterexample workbook: a detected header and
one data row. -/
def wsC7a : Sheet :=
  ⟨"a".data, [[Value.str "codigo".data, Value.str "stock".data],
              [Value.str "A1".data, Value.str "1".data]]⟩

/-- Second sheet of the C7 counterexample workbook: a detected header and
three data rows. -/
def wsC7b : Sheet :=
  ⟨"b".data, [[Value.str "codigo".data, Value.str "stock".data],
              [Value.str "B1".data, Value.str "1".data],
              [Value.str "B2".data, Value.str "1".data],
              [Value.str "B3".data, Value.str "1".data]]⟩

def wbC7 : Wb := ⟨[wsC7a, wsC7b], 0⟩

/-- C7 counterexample: the second sheet yields three non-empty codes and
the first only one, yet `extraer_imsa_hoja1` extracts from the first sheet
with a detected header — record extraction is NOT always from the
highest-count sheet. -/
theorem c7_best_sheet_cex :
    (extraerImsaHoja1 wbC7).map RegH1.id = ["A1".data] ∧
    (scoreInfo 8 8 wsC7a).2 = 1 ∧
    (scoreInfo 8 8 wsC7b).2 = 3 := by
  refine ⟨?_, ?_, ?_⟩ <;> decide

/-- C7 witness: the amended maximality applied to the counterexample
workbook's sheets. -/
theorem c7_best_sheet_amended_witness :
    (scoreInfo 8 8 wsC7b).2 ≤ (elegirHojaStock wbC7 8 8).2 :=
  (c7_best_sheet_amended wbC7 8 8).1 wsC7b (by decide)

/-! ### C5: stock-inclusion policy -/

/-- When `elegir_hoja_stock` returns a candidate, it came from one of the
workbook's sheets, with that sheet's useful-row count. -/
theorem elegir_some_src (wb : Wb) (hint colHint : ℕ) (ch : Chosen)
    (h : (elegirHojaStock wb hint colHint).1 = some ch) :
    ∃ ws ∈ wb.sheets,
      scoreInfo hint colHint ws = (ch, (elegirHojaStock wb hint colHint).2) := by
  rcases elegir_foldl_some_src hint colHint wb.sheets (Option.none, 0) ch h with h1 | h2
  · exact absurd (congrArg Prod.fst h1) (by simp)
  · exact h2

theorem length_filterMap_eq_countP {α β : Type} (f : α → Option β) (p : α → Bool)
    (hfp : ∀ a, (f a).isSome = p a) :
    ∀ l : List α, (l.filterMap f).length = l.countP p := by
  intro l
  induction l with
  | nil => rfl
  | cons a rest ih =>
    rw [List.countP_cons]
    cases hfa : f a with
    | none =>
      have hp : p a = false := by rw [← hfp a, hfa]; rfl
      rw [List.filterMap_cons_none hfa, ih, hp]
      simp
    | some b =>
      have hp : p a = true := by rw [← hfp a, hfa]; rfl
      rw [List.filterMap_cons_some hfa, List.length_cons, ih, hp]
      simp

theorem rowToRegH1_isSome (cols : Cols) (row : List Value) :
    (rowToRegH1 cols row).isSome = !(normText (colVal row cols.codigo)).isEmpty := by
  rw [rowToRegH1]
  by_cases h : normText (colVal row cols.codigo) = []
  · rw [if_pos h, h]; rfl
  · rw [if_neg h]
    cases hl : normText (colVal row cols.codigo) with
    | nil => exact absurd hl h
    | cons c r => rfl

/-- The extraction has exactly one record per useful row of the chosen
sheet: nothing is filtered out on stock grounds. -/
theorem extraer_len (wb : Wb) (hint colHint : ℕ) :
    (extraerRegistrosConStockAuto wb hint colHint).length
      = (elegirHojaStock wb hint colHint).2 := by
  rw [extraerRegistrosConStockAuto]
  cases helegir : elegirHojaStock wb hint colHint with
  | mk o cnt =>
    cases o with
    | none =>
      have hz := elegir_foldl_none hint colHint wb.sheets (Option.none, 0)
        (by show (elegirHojaStock wb hint colHint).1 = Option.none; rw [helegir])
      have hc : cnt = 0 := by
        have h2 : (elegirHojaStock wb hint colHint).2 = 0 := by
          show (List.foldl (elegirStep hint colHint) (Option.none, 0) wb.sheets).2 = 0
          rw [hz]
        rw [helegir] at h2
        simpa using h2
      simp [hc]
    | some ch =>
      obtain ⟨ws, hwmem, hsc0⟩ := elegir_some_src wb hint colHint ch (by rw [helegir])
      have hsc : scoreInfo hint colHint ws = (ch, cnt) := by
        rw [helegir] at hsc0
        exact hsc0
      cases hdet : detectarColumnas ws with
      | mk hro cols =>
        cases hro with
        | some hr =>
          by_cases hcod : cols.codigo.isSome
          · simp only [scoreInfo, hdet, if_pos hcod] at hsc
            have hch : ch = ⟨ws, Modo.encabezados, hr, cols⟩ :=
              (congrArg Prod.fst hsc).symm
            have hcnt : cnt = contarFilas ws hr cols := (congrArg Prod.snd hsc).symm
            subst hch
            show ((iterRows ws (hr + 1) (maxNeededCol cols)).filterMap
                    (rowToRegH1 cols)).length = cnt
            rw [length_filterMap_eq_countP (rowToRegH1 cols)
                  (fun row => !(normText (colVal row cols.codigo)).isEmpty)
                  (rowToRegH1_isSome cols)]
            exact hcnt.symm
          · simp only [scoreInfo, hdet, if_neg hcod] at hsc
            have hch : ch = ⟨ws, Modo.fallback, hint,
                ⟨some 1, some colHint, Option.none, Option.none⟩⟩ :=
              (congrArg Prod.fst hsc).symm
            have hcnt : cnt = fallbackCount ws hint := (congrArg Prod.snd hsc).symm
            subst hch
            refine Eq.trans (length_filterMap_eq_countP _
              (fun r => !(normText (ws.cell r 1)).isEmpty) ?_ _) ?_
            · intro r
              dsimp only
              by_cases h : normText (ws.cell r 1) = []
              · rw [if_pos h, h]; rfl
              · rw [if_neg h]
                cases hl : normText (ws.cell r 1) with
                | nil => exact absurd hl h
                | cons c rr => rfl
            · exact hcnt.symm
        | none =>
          simp only [scoreInfo, hdet] at hsc
          have hch : ch = ⟨ws, Modo.fallback, hint,
              ⟨some 1, some colHint, Option.none, Option.none⟩⟩ :=
            (congrArg Prod.fst hsc).symm
          have hcnt : cnt = fallbackCount ws hint := (congrArg Prod.snd hsc).symm
          subst hch
          refine Eq.trans (length_filterMap_eq_countP _
            (fun r => !(normText (ws.cell r 1)).isEmpty) ?_ _) ?_
          · intro r
            dsimp only
            by_cases h : normText (ws.cell r 1) = []
            · rw [if_pos h, h]; rfl
            · rw [if_neg h]
              cases hl : normText (ws.cell r 1) with
              | nil => exact absurd hl h
              | cons c rr => rfl
          · exact hcnt.symm

/-- C5 (amended): the threshold-policy extraction drops no record on
stock grounds — the availability output has exactly one record per row
with a non-empty code of the chosen sheet (the chooser's useful-row
count); the stock value instead carries a classification in which a
greater-than-5 phrase or a numeric stock ≥ 5 yields the high level 6, and
a "no stock" phrase or a numeric stock ≤ 0 yields level 0 (the record
remains in the output). -/
theorem c5_stock_policy_amended (wb : Wb) (hint colHint : ℕ) :
    (extraerRegistrosConStockAuto wb hint colHint).length
        = (elegirHojaStock wb hint colHint).2 ∧
    convertir_stock_generico (Value.str "Mayor a 5".data) = some 6 ∧
    convertir_stock_generico (Value.str "Sin stock".data) = some 0 ∧
    (∀ q : ℚ, 5 ≤ q → convertir_stock_generico (Value.num q) = some 6) ∧
    (∀ q : ℚ, q ≤ 0 → convertir_stock_generico (Value.num q) = some 0) := by
  refine ⟨extraer_len wb hint colHint, by decide, by decide, ?_, ?_⟩
  · intro q h
    have h0 : ¬ q ≤ 0 := by linarith
    simp [convertir_stock_generico, h0, h]
  · intro q h
    simp [convertir_stock_generico, h]

/-- The workbook of the C5 counterexample: a header sheet with one
`Sin stock` row and one `Mayor a 5` row. -/
def wbC5 : Wb :=
  ⟨[⟨"h".data, [[Value.str "codigo".data, Value.str "stock".data],
                [Value.str "X1".data, Value.str "Sin stock".data],
                [Value.str "X2".data, Value.str "Mayor a 5".data]]⟩], 0⟩

/-- C5 counterexample: the record whose stock text is `Sin stock` is NOT
excluded from the availability output — it is emitted with stock level 0
alongside the `Mayor a 5` record, so the claimed inclusion-iff fails. -/
theorem c5_stock_policy_cex :
    (extraerRegistrosConStockAuto wbC5 2 8).map RegH1.id = ["X1".data, "X2".data] ∧
    (extraerRegistrosConStockAuto wbC5 2 8).map RegH1.stock = [some 0, some 6] := by
  refine ⟨?_, ?_⟩ <;> decide

/-- C5 witness: the amended classification applied at numeric stock 7 and
at the counterexample workbook. -/
theorem c5_stock_policy_amended_witness :
    (extraerRegistrosConStockAuto wbC5 2 8).length = (elegirHojaStock wbC5 2 8).2 ∧
    convertir_stock_generico (Value.num 7) = some 6 :=
  ⟨(c5_stock_policy_amended wbC5 2 8).1,
   (c5_stock_policy_amended wbC5 2 8).2.2.2.1 7 (by norm_num)⟩

/-! ### C9: F/T id mirroring -/

theorem mirrorOf_F (r : RegH1) (c : Char) (rest : Str) (hid : r.id = 'F' :: c :: rest) :
    mirrorOf r = [⟨'T' :: c :: rest, r.stock, r.precio, r.moneda⟩] := by
  rw [mirrorOf.eq_def, hid]
  rfl

theorem mirrorOf_T (r : RegH1) (c : Char) (rest : Str) (hid : r.id = 'T' :: c :: rest) :
    mirrorOf r = [⟨'F' :: c :: rest, r.stock, r.precio, r.moneda⟩] := by
  rw [mirrorOf.eq_def, hid]
  rfl

theorem espejar_F_has_T (base : List RegH1) :
    ∀ r ∈ espejarFT base, ∀ c : Char, ∀ rest : Str, r.id = 'F' :: c :: rest →
      ∃ r' ∈ espejarFT base, r'.id = 'T' :: c :: rest ∧
        r'.precio = r.precio ∧ r'.stock = r.stock := by
  intro r hr c rest hid
  rw [espejarFT, List.mem_flatMap] at hr
  obtain ⟨b, hb, hrb⟩ := hr
  have hmemb : ∀ x ∈ b :: mirrorOf b, x ∈ espejarFT base := by
    intro x hx
    rw [espejarFT, List.mem_flatMap]
    exact ⟨b, hb, hx⟩
  rcases List.mem_cons.mp hrb with h1 | h2
  · subst h1
    refine ⟨⟨'T' :: c :: rest, r.stock, r.precio, r.moneda⟩, hmemb _ ?_, rfl, rfl, rfl⟩
    rw [mirrorOf_F r c rest hid]
    simp
  · rw [mirrorOf.eq_def] at h2
    split at h2
    · rename_i c2 rest2 heq
      rw [List.mem_singleton] at h2
      subst h2
      simp at hid
    · rename_i c2 rest2 heq
      rw [List.mem_singleton] at h2
      subst h2
      simp only [List.cons.injEq] at hid
      obtain ⟨-, hc, hrest⟩ := hid
      subst hc; subst hrest
      exact ⟨b, hmemb b (List.mem_cons_self b _), heq, rfl, rfl⟩
    · simp at h2

theorem espejar_T_has_F (base : List RegH1) :
    ∀ r ∈ espejarFT base, ∀ c : Char, ∀ rest : Str, r.id = 'T' :: c :: rest →
      ∃ r' ∈ espejarFT base, r'.id = 'F' :: c :: rest ∧
        r'.precio = r.precio ∧ r'.stock = r.stock := by
  intro r hr c rest hid
  rw [espejarFT, List.mem_flatMap] at hr
  obtain ⟨b, hb, hrb⟩ := hr
  have hmemb : ∀ x ∈ b :: mirrorOf b, x ∈ espejarFT base := by
    intro x hx
    rw [espejarFT, List.mem_flatMap]
    exact ⟨b, hb, hx⟩
  rcases List.mem_cons.mp hrb with h1 | h2
  · subst h1
    refine ⟨⟨'F' :: c :: rest, r.stock, r.precio, r.moneda⟩, hmemb _ ?_, rfl, rfl, rfl⟩
    rw [mirrorOf_T r c rest hid]
    simp
  · rw [mirrorOf.eq_def] at h2
    split at h2
    · rename_i c2 rest2 heq
      rw [List.mem_singleton] at h2
      subst h2
      simp only [List.cons.injEq] at hid
      obtain ⟨-, hc, hrest⟩ := hid
      subst hc; subst hrest
      exact ⟨b, hmemb b (List.mem_cons_self b _), heq, rfl, rfl⟩
    · rename_i c2 rest2 heq
      rw [List.mem_singleton] at h2
      subst h2
      simp at hid
    · simp at h2

/-- C9 (amended): in every Tevelam or Disco Pro availability output, for
every record whose id is `F` followed by a NONEMPTY rest, a record with id
`T` and the same rest exists with equal price and stock, and vice versa.
(The source only mirrors ids of length ≥ 2, so a bare one-letter id `F`
or `T` has no mirror — see the counterexample.) -/
theorem c9_mirroring_amended (wb : Wb) :
    (∀ r ∈ extraerTevelamHoja1 wb, ∀ c : Char, ∀ rest : Str,
       r.id = 'F' :: c :: rest →
       ∃ r' ∈ extraerTevelamHoja1 wb, r'.id = 'T' :: c :: rest ∧
         r'.precio = r.precio ∧ r'.stock = r.stock) ∧
    (∀ r ∈ extraerTevelamHoja1 wb, ∀ c : Char, ∀ rest : Str,
       r.id = 'T' :: c :: rest →
       ∃ r' ∈ extraerTevelamHoja1 wb, r'.id = 'F' :: c :: rest ∧
         r'.precio = r.precio ∧ r'.stock = r.stock) ∧
    (∀ r ∈ extraerDiscoHoja1 wb, ∀ c : Char, ∀ rest : Str,
       r.id = 'F' :: c :: rest →
       ∃ r' ∈ extraerDiscoHoja1 wb, r'.id = 'T' :: c :: rest ∧
         r'.precio = r.precio ∧ r'.stock = r.stock) ∧
    (∀ r ∈ extraerDiscoHoja1 wb, ∀ c : Char, ∀ rest : Str,
       r.id = 'T' :: c :: rest →
       ∃ r' ∈ extraerDiscoHoja1 wb, r'.id = 'F' :: c :: rest ∧
         r'.precio = r.precio ∧ r'.stock = r.stock) :=
  ⟨espejar_F_has_T _, espejar_T_has_F _, espejar_F_has_T _, espejar_T_has_F _⟩

/-- The workbook of the C9 counterexample: one extracted record whose id
is the single letter `F`. -/
def wbC9 : Wb :=
  ⟨[⟨"h".data, [[Value.str "codigo".data, Value.str "stock".data],
                [Value.str "F".data, Value.str "2".data]]⟩], 0⟩

/-- C9 counterexample: the Tevelam availability output contains a record
with id `F` (= `F` followed by the empty rest) but no record with id `T`,
so the mirroring claim fails when the rest is allowed to be empty. -/
theorem c9_mirroring_cex :
    (∃ r ∈ extraerTevelamHoja1 wbC9, r.id = "F".data) ∧
    (∀ r ∈ extraerTevelamHoja1 wbC9, r.id ≠ "T".data) := by
  refine ⟨?_, ?_⟩ <;> decide

/-- The workbook of the C9 witness: one record with id `FX`. -/
def wbC9w : Wb :=
  ⟨[⟨"h".data, [[Value.str "codigo".data], [Value.str "FX".data]]⟩], 0⟩

/-- C9 witness: the amended mirroring applied to the concrete record `FX`
of `wbC9w`. -/
theorem c9_mirroring_amended_witness :
    ∃ r' ∈ extraerTevelamHoja1 wbC9w, r'.id = "TX".data ∧
      r'.precio = (⟨"FX".data, Option.none, Option.none, Option.none⟩ : RegH1).precio ∧
      r'.stock = (⟨"FX".data, Option.none, Option.none, Option.none⟩ : RegH1).stock :=
  (c9_mirroring_amended wbC9w).1 ⟨"FX".data, Option.none, Option.none, Option.none⟩
    (by decide) 'X' [] (by decide)

/-! ### C1: cold-start behaviour -/

theorem cold_start_diffs (regs : List Reg) :
    (calcularDiffs [] regs).1 = [] ∧
    (calcularDiffs [] regs).2.1 = [] ∧
    (calcularDiffs [] regs).2.2.2 = [] ∧
    ((calcularDiffs [] regs).2.2.1).map ItemRow.id
      = sortStr ((buildCurrMap regs).map Prod.fst) := by
  have hcom : comunesOf [] regs = [] := by
    simp [comunesOf, prevIdsOf]
    rfl
  have hnew : nuevosIdsOf [] regs = sortStr (currIdsOf regs) := by
    simp [nuevosIdsOf, prevIdsOf]
  refine ⟨?_, ?_, ?_, ?_⟩
  · simp only [calcularDiffs, hcom]
    rfl
  · simp only [calcularDiffs, hcom]
    rfl
  · simp only [calcularDiffs]
    rfl
  · simp only [calcularDiffs, hnew, List.map_map]
    refine Eq.trans (List.map_congr_left ?_) (List.map_id _)
    intro i _
    dsimp only [Function.comp, id, nuevoRow]
    cases hl : lookupA (buildCurrMap regs) i <;> rfl

def hashC1 : List ℕ → Str := fun _ => "h".data

def edC1 : File → Except Unit (List Reg) :=
  fun _ => Except.ok [⟨"A1".data, some 100, some "USD".data⟩]

def ehC1 : File → Except Unit (List RegH1) := fun _ => Except.ok []

/-- C1 counterexample: on a cold start (no persisted hash, no snapshot)
with one extracted record, `run_fuente` produces a report whose new_items
list is NOT empty — the claim "zero diff-report entries regardless of
extracted content" fails. -/
theorem c1_cold_start_cex :
    (runFuente hashC1 edC1 ehC1 ⟨Option.none, Option.none⟩ (some ⟨[0]⟩)).2.report
      = some ⟨[], [], [⟨"A1".data, some "USD".data, some 100⟩], []⟩ := by
  decide

/-! ### C6: parse-failure atomicity -/

/-- C6 (amended): when the gate said "process" (so the content hash was
already replaced) and the diff extraction then fails, the persisted
snapshot is left untouched — but the persisted hash now holds the NEW
file's hash, so an identical retry next cycle is gated off; only a
subsequently different file unblocks reprocessing. -/
theorem c6_parse_failure_amended (hashFn : List ℕ → Str)
    (ed : File → Except Unit (List Reg)) (eh : File → Except Unit (List RegH1))
    (st : SourceState) (f : File)
    (hproc : (decideShouldProcess hashFn st.hash (some f)).1 = true)
    (hfail : ed f = Except.error ()) :
    (runFuente hashFn ed eh st (some f)).1.snap = st.snap ∧
    (runFuente hashFn ed eh st (some f)).1.hash = some (hashFn f.bytes) := by
  have hgate : decideShouldProcess hashFn st.hash (some f)
      = (true, some (hashFn f.bytes)) := by
    rw [decideShouldProcess] at hproc ⊢
    by_cases h : st.hash = some (hashFn f.bytes)
    · rw [if_pos h] at hproc
      simp at hproc
    · rw [if_neg h]
  simp only [runFuente, hgate, hfail]
  constructor <;> simp

def hashC6 : List ℕ → Str := fun _ => "b".data

def edC6 : File → Except Unit (List Reg) := fun _ => Except.error ()

def ehC6 : File → Except Unit (List RegH1) := fun _ => Except.ok []

def stC6 : SourceState := ⟨some "a".data, some [["ID".data, "Precio".data, "Moneda".data]]⟩

/-- C6 counterexample: a changed file whose diff extraction fails leaves
the snapshot untouched but NOT the hash — the persisted hash now differs
from the prior one, refuting "both ... left untouched". -/
theorem c6_parse_failure_cex :
    (runFuente hashC6 edC6 ehC6 stC6 (some ⟨[0]⟩)).1.snap = stC6.snap ∧
    (runFuente hashC6 edC6 ehC6 stC6 (some ⟨[0]⟩)).1.hash ≠ stC6.hash := by
  refine ⟨?_, ?_⟩ <;> decide

/-- C6 witness: the amended failure semantics applied to the concrete
failing extractor. -/
theorem c6_parse_failure_amended_witness :
    (runFuente hashC6 edC6 ehC6 stC6 (some ⟨[0]⟩)).1.snap = stC6.snap ∧
    (runFuente hashC6 edC6 ehC6 stC6 (some ⟨[0]⟩)).1.hash = some (hashC6 [0]) :=
  c6_parse_failure_amended hashC6 edC6 ehC6 stC6 ⟨[0]⟩ (by decide) rfl

/-! ### C3: diff completeness -/

theorem insertSorted_perm (x : Str) (l : List Str) :
    (insertSorted x l).Perm (x :: l) := by
  induction l with
  | nil => exact List.Perm.refl _
  | cons y r ih =>
    rw [insertSorted]
    by_cases h : ltStr y x
    · rw [if_pos h]
      exact List.Perm.trans (List.Perm.cons y ih) (List.Perm.swap x y r)
    · rw [if_neg h]

theorem sortStr_perm (l : List Str) : (sortStr l).Perm l := by
  induction l with
  | nil => exact List.Perm.refl _
  | cons a r ih =>
    exact List.Perm.trans (insertSorted_perm a (sortStr r)) (List.Perm.cons a ih)

theorem mem_sortStr {i : Str} {l : List Str} : i ∈ sortStr l ↔ i ∈ l :=
  (sortStr_perm l).mem_iff

theorem nodup_sortStr {l : List Str} (h : l.Nodup) : (sortStr l).Nodup :=
  ((sortStr_perm l).nodup_iff).mpr h

theorem updateAssoc_keys {β : Type} (m : List (Str × β)) (k : Str) (v : β) :
    (updateAssoc m k v).map Prod.fst = m.map Prod.fst ∨
    ((updateAssoc m k v).map Prod.fst = m.map Prod.fst ++ [k] ∧ k ∉ m.map Prod.fst) := by
  rw [updateAssoc]
  by_cases h : m.any (fun p => decide (p.1 = k))
  · rw [if_pos h]
    left
    rw [List.map_map]
    refine List.map_congr_left ?_
    intro p _
    by_cases hp : p.1 = k
    · simp [hp]
    · simp [hp]
  · rw [if_neg h]
    right
    constructor
    · rw [List.map_append]
      rfl
    · intro hk
      obtain ⟨p, hp, hpk⟩ := List.mem_map.mp hk
      refine h ?_
      rw [List.any_eq_true]
      exact ⟨p, hp, by simp [hpk]⟩

theorem buildCurrMap_keys_nodup (regs : List Reg) :
    ((buildCurrMap regs).map Prod.fst).Nodup := by
  suffices h : ∀ m : List (Str × Reg), (m.map Prod.fst).Nodup →
      ((regs.foldl (fun m r => if r.id ≠ [] then updateAssoc m r.id r else m) m).map
        Prod.fst).Nodup by
    exact h [] List.nodup_nil
  induction regs with
  | nil => intro m hm; exact hm
  | cons r rest ih =>
    intro m hm
    rw [List.foldl_cons]
    refine ih _ ?_
    by_cases hr : r.id ≠ []
    · rw [if_pos hr]
      rcases updateAssoc_keys m r.id r with h1 | h2
      · rw [h1]; exact hm
      · rw [h2.1]
        rw [List.nodup_append]
        exact ⟨hm, List.nodup_singleton _, by
          intro x hx hx1
          rw [List.mem_singleton] at hx1
          subst hx1
          exact h2.2 hx⟩
    · rw [if_neg hr]
      exact hm

theorem commonRow_id (prevSnap : Snap) (currMap : List (Str × Reg)) (i : Str)
    (row : DiffRow) (h : commonRow prevSnap currMap i = some row) : row.id = i := by
  rw [commonRow] at h
  split at h
  · split at h
    · exact absurd h (by simp)
    · have := Option.some.inj h
      rw [← this]
  · exact absurd h (by simp)

theorem diffComunes_mem (prevSnap : Snap) (currMap : List (Str × Reg)) :
    ∀ (l : List Str) (r : DiffRow),
      r ∈ (diffComunes prevSnap currMap l).1 ∨ r ∈ (diffComunes prevSnap currMap l).2 →
      r.id ∈ l := by
  intro l
  induction l with
  | nil =>
    intro r h
    rcases h with h | h <;> simp [diffComunes] at h
  | cons i rest ih =>
    intro r h
    rw [diffComunes] at h
    cases hcr : commonRow prevSnap currMap i with
    | none =>
      rw [hcr] at h
      exact List.mem_cons_of_mem i (ih r h)
    | some row =>
      rw [hcr] at h
      dsimp only at h
      by_cases hd : 0 < row.delta
      · rw [if_pos hd] at h
        rcases h with h | h
        · rcases List.mem_cons.mp h with h1 | h2
          · subst h1
            rw [commonRow_id prevSnap currMap i r hcr]
            exact List.mem_cons_self i rest
          · exact List.mem_cons_of_mem i (ih r (Or.inl h2))
        · exact List.mem_cons_of_mem i (ih r (Or.inr h))
      · rw [if_neg hd] at h
        rcases h with h | h
        · exact List.mem_cons_of_mem i (ih r (Or.inl h))
        · rcases List.mem_cons.mp h with h1 | h2
          · subst h1
            rw [commonRow_id prevSnap currMap i r hcr]
            exact List.mem_cons_self i rest
          · exact List.mem_cons_of_mem i (ih r (Or.inr h2))

theorem diffComunes_disjoint (prevSnap : Snap) (currMap : List (Str × Reg)) :
    ∀ l : List Str, l.Nodup →
      ∀ r1 ∈ (diffComunes prevSnap currMap l).1,
      ∀ r2 ∈ (diffComunes prevSnap currMap l).2, r1.id ≠ r2.id := by
  intro l
  induction l with
  | nil =>
    intro _ r1 h1
    simp [diffComunes] at h1
  | cons i rest ih =>
    intro hnd r1 h1 r2 h2
    have hi : i ∉ rest := (List.nodup_cons.mp hnd).1
    have hrest : rest.Nodup := (List.nodup_cons.mp hnd).2
    rw [diffComunes] at h1 h2
    cases hcr : commonRow prevSnap currMap i with
    | none =>
      rw [hcr] at h1 h2
      exact ih hrest r1 h1 r2 h2
    | some row =>
      rw [hcr] at h1 h2
      dsimp only at h1 h2
      by_cases hd : 0 < row.delta
      · rw [if_pos hd] at h1 h2
        rcases List.mem_cons.mp h1 with he | hm
        · subst he
          intro heq
          have h2id : r2.id ∈ rest :=
            diffComunes_mem prevSnap currMap rest r2 (Or.inr h2)
          rw [← heq, commonRow_id prevSnap currMap i r1 hcr] at h2id
          exact hi h2id
        · exact ih hrest r1 hm r2 h2
      · rw [if_neg hd] at h1 h2
        rcases List.mem_cons.mp h2 with he | hm
        · subst he
          intro heq
          have h1id : r1.id ∈ rest :=
            diffComunes_mem prevSnap currMap rest r1 (Or.inl h1)
          rw [heq, commonRow_id prevSnap currMap i r2 hcr] at h1id
          exact hi h1id
        · exact ih hrest r1 h1 r2 hm

theorem comunesOf_facts (prevSnap : Snap) (currRegs : List Reg) (i : Str)
    (h : i ∈ comunesOf prevSnap currRegs) :
    i ∈ currIdsOf currRegs ∧ i ∈ prevIdsOf prevSnap := by
  rw [comunesOf, mem_sortStr, List.mem_filter] at h
  exact ⟨h.1, of_decide_eq_true h.2⟩

theorem nuevosIdsOf_facts (prevSnap : Snap) (currRegs : List Reg) (i : Str)
    (h : i ∈ nuevosIdsOf prevSnap currRegs) :
    i ∈ currIdsOf currRegs ∧ i ∉ prevIdsOf prevSnap := by
  rw [nuevosIdsOf, mem_sortStr, List.mem_filter] at h
  exact ⟨h.1, of_decide_eq_true h.2⟩

theorem elimIdsOf_facts (prevSnap : Snap) (currRegs : List Reg) (i : Str)
    (h : i ∈ elimIdsOf prevSnap currRegs) :
    i ∈ prevIdsOf prevSnap ∧ i ∉ currIdsOf currRegs := by
  rw [elimIdsOf, mem_sortStr, List.mem_filter] at h
  exact ⟨h.1, of_decide_eq_true h.2⟩

theorem comunesOf_nodup (prevSnap : Snap) (currRegs : List Reg) :
    (comunesOf prevSnap currRegs).Nodup :=
  nodup_sortStr (List.Nodup.filter _ (buildCurrMap_keys_nodup currRegs))

theorem mem_nuevos_id (prevSnap : Snap) (currRegs : List Reg) (r : ItemRow)
    (h : r ∈ (calcularDiffs prevSnap currRegs).2.2.1) :
    r.id ∈ nuevosIdsOf prevSnap currRegs := by
  obtain ⟨j, hj, heq⟩ := List.mem_map.mp h
  have hid : r.id = j := by
    rw [← heq, nuevoRow]
    cases lookupA (buildCurrMap currRegs) j <;> rfl
  rw [hid]
  exact hj

theorem mem_elim_id (prevSnap : Snap) (currRegs : List Reg) (r : ItemRow)
    (h : r ∈ (calcularDiffs prevSnap currRegs).2.2.2) :
    r.id ∈ elimIdsOf prevSnap currRegs := by
  obtain ⟨j, hj, heq⟩ := List.mem_map.mp h
  have hid : r.id = j := by
    rw [← heq, elimRow]
    cases lookupA prevSnap j <;> rfl
  rw [hid]
  exact hj

/-- C3: for every previous snapshot, current record list and id, the id is
mentioned by at most one of the four diff outputs of `calcular_diffs` —
price-up and price-down rows come from disjoint positions of the
duplicate-free common-id list, and the common/new/removed id sets are
pairwise disjoint by construction; ids with a `None` price on either side
or an unchanged price are mentioned by none of the four. -/
theorem c3_diff_completeness (prevSnap : Snap) (currRegs : List Reg) (i : Str) :
    ¬((∃ r ∈ (calcularDiffs prevSnap currRegs).1, r.id = i) ∧
      (∃ r ∈ (calcularDiffs prevSnap currRegs).2.1, r.id = i)) ∧
    ¬((∃ r ∈ (calcularDiffs prevSnap currRegs).1, r.id = i) ∧
      (∃ r ∈ (calcularDiffs prevSnap currRegs).2.2.1, r.id = i)) ∧
    ¬((∃ r ∈ (calcularDiffs prevSnap currRegs).1, r.id = i) ∧
      (∃ r ∈ (calcularDiffs prevSnap currRegs).2.2.2, r.id = i)) ∧
    ¬((∃ r ∈ (calcularDiffs prevSnap currRegs).2.1, r.id = i) ∧
      (∃ r ∈ (calcularDiffs prevSnap currRegs).2.2.1, r.id = i)) ∧
    ¬((∃ r ∈ (calcularDiffs prevSnap currRegs).2.1, r.id = i) ∧
      (∃ r ∈ (calcularDiffs prevSnap currRegs).2.2.2, r.id = i)) ∧
    ¬((∃ r ∈ (calcularDiffs prevSnap currRegs).2.2.1, r.id = i) ∧
      (∃ r ∈ (calcularDiffs prevSnap currRegs).2.2.2, r.id = i)) := by
  have hUp : (∃ r ∈ (calcularDiffs prevSnap currRegs).1, r.id = i) →
      i ∈ comunesOf prevSnap currRegs := by
    rintro ⟨r, hr, hid⟩
    rw [← hid]
    exact diffComunes_mem prevSnap (buildCurrMap currRegs)
      (comunesOf prevSnap currRegs) r (Or.inl hr)
  have hDn : (∃ r ∈ (calcularDiffs prevSnap currRegs).2.1, r.id = i) →
      i ∈ comunesOf prevSnap currRegs := by
    rintro ⟨r, hr, hid⟩
    rw [← hid]
    exact diffComunes_mem prevSnap (buildCurrMap currRegs)
      (comunesOf prevSnap currRegs) r (Or.inr hr)
  have hNu : (∃ r ∈ (calcularDiffs prevSnap currRegs).2.2.1, r.id = i) →
      i ∈ nuevosIdsOf prevSnap currRegs := by
    rintro ⟨r, hr, hid⟩
    rw [← hid]
    exact mem_nuevos_id prevSnap currRegs r hr
  have hEl : (∃ r ∈ (calcularDiffs prevSnap currRegs).2.2.2, r.id = i) →
      i ∈ elimIdsOf prevSnap currRegs := by
    rintro ⟨r, hr, hid⟩
    rw [← hid]
    exact mem_elim_id prevSnap currRegs r hr
  refine ⟨?_, ?_, ?_, ?_, ?_, ?_⟩
  · rintro ⟨⟨r1, hr1, hid1⟩, ⟨r2, hr2, hid2⟩⟩
    exact diffComunes_disjoint prevSnap (buildCurrMap currRegs)
      (comunesOf prevSnap currRegs) (comunesOf_nodup prevSnap currRegs)
      r1 hr1 r2 hr2 (hid1.trans hid2.symm)
  · rintro ⟨h1, h2⟩
    exact (nuevosIdsOf_facts prevSnap currRegs i (hNu h2)).2
      (comunesOf_facts prevSnap currRegs i (hUp h1)).2
  · rintro ⟨h1, h2⟩
    exact (elimIdsOf_facts prevSnap currRegs i (hEl h2)).2
      (comunesOf_facts prevSnap currRegs i (hUp h1)).1
  · rintro ⟨h1, h2⟩
    exact (nuevosIdsOf_facts prevSnap currRegs i (hNu h2)).2
      (comunesOf_facts prevSnap currRegs i (hDn h1)).2
  · rintro ⟨h1, h2⟩
    exact (elimIdsOf_facts prevSnap currRegs i (hEl h2)).2
      (comunesOf_facts prevSnap currRegs i (hDn h1)).1
  · rintro ⟨h1, h2⟩
    exact (elimIdsOf_facts prevSnap currRegs i (hEl h2)).2
      (nuevosIdsOf_facts prevSnap currRegs i (hNu h1)).1

/-! ### C10: snapshot round trip -/

theorem valLE_natToDigitsRev : ∀ fuel n : ℕ, n ≤ fuel → valLE (natToDigitsRev fuel n) = n := by
  intro fuel
  induction fuel with
  | zero => intro n h; interval_cases n; rfl
  | succ fuel ih =>
    intro n h
    rw [natToDigitsRev]
    by_cases hn : n = 0
    · rw [if_pos hn, hn]; rfl
    · rw [if_neg hn, valLE, ih (n / 10) (by omega)]
      omega

theorem natToDigitsRev_lt10 : ∀ fuel n d : ℕ, d ∈ natToDigitsRev fuel n → d < 10 := by
  intro fuel
  induction fuel with
  | zero => intro n d h; simp [natToDigitsRev] at h
  | succ fuel ih =>
    intro n d h
    rw [natToDigitsRev] at h
    by_cases hn : n = 0
    · rw [if_pos hn] at h; simp at h
    · rw [if_neg hn] at h
      rcases List.mem_cons.mp h with h1 | h2
      · omega
      · exact ih (n / 10) d h2

theorem natToDigitsRev_length : ∀ fuel n k : ℕ, n ≤ fuel → n < 10 ^ k →
    (natToDigitsRev fuel n).length ≤ k := by
  intro fuel
  induction fuel with
  | zero => intro n k _ _; simp [natToDigitsRev]
  | succ fuel ih =>
    intro n k h hk
    rw [natToDigitsRev]
    by_cases hn : n = 0
    · rw [if_pos hn]; simp
    · rw [if_neg hn, List.length_cons]
      cases k with
      | zero => simp at hk; omega
      | succ k =>
        have : (natToDigitsRev fuel (n / 10)).length ≤ k := by
          refine ih (n / 10) k (by omega) ?_
          rw [pow_succ] at hk
          omega
        omega

theorem parseNatList_append_single (l : List ℕ) (d : ℕ) :
    parseNatList (l ++ [d]) = 10 * parseNatList l + d := by
  rw [parseNatList, parseNatList, List.foldl_append]
  rfl

theorem parseNatList_reverse : ∀ l : List ℕ, parseNatList l.reverse = valLE l := by
  intro l
  induction l with
  | nil => rfl
  | cons d r ih =>
    rw [List.reverse_cons, parseNatList_append_single, ih, valLE]
    omega

theorem digitChar_toNat (d : ℕ) (h : d < 10) : (digitChar d).toNat = 48 + d := by
  interval_cases d <;> decide

theorem digitVal_digitChar (d : ℕ) (h : d < 10) : digitVal (digitChar d) = d := by
  rw [digitVal, digitChar_toNat d h]
  omega

theorem isDig_digitChar (d : ℕ) (h : d < 10) : isDig (digitChar d) = true := by
  rw [isDig, digitChar_toNat d h]
  simpa using by omega

theorem natDigits_all_isDig (n : ℕ) : ∀ c ∈ natDigits n, isDig c = true := by
  rw [natDigits]
  by_cases hn : n = 0
  · rw [if_pos hn]
    intro c hc
    rw [List.mem_singleton] at hc
    subst hc
    decide
  · rw [if_neg hn]
    intro c hc
    rw [List.mem_reverse] at hc
    obtain ⟨d, hd, hdc⟩ := List.mem_map.mp hc
    rw [← hdc]
    exact isDig_digitChar d (natToDigitsRev_lt10 n n d hd)

theorem natDigits_ne_nil (n : ℕ) : natDigits n ≠ [] := by
  rw [natDigits]
  by_cases hn : n = 0
  · rw [if_pos hn]; simp
  · rw [if_neg hn]
    simp only [ne_eq, List.reverse_eq_nil_iff, List.map_eq_nil_iff]
    cases n with
    | zero => exact absurd rfl hn
    | succ m =>
      rw [natToDigitsRev]
      simp [hn]

theorem parseNatChars_natDigits (n : ℕ) : parseNatChars (natDigits n) = n := by
  rw [natDigits]
  by_cases hn : n = 0
  · rw [if_pos hn, hn]; rfl
  · rw [if_neg hn, parseNatChars, List.map_reverse, List.map_map]
    have hmap : (natToDigitsRev n n).map (digitVal ∘ digitChar) = natToDigitsRev n n := by
      refine Eq.trans (List.map_congr_left ?_) (List.map_id _)
      intro d hd
      exact digitVal_digitChar d (natToDigitsRev_lt10 n n d hd)
    rw [hmap, parseNatList_reverse, valLE_natToDigitsRev n n (le_refl n)]

theorem parseNatList_replicate_zero (j : ℕ) (t : List ℕ) :
    parseNatList (List.replicate j 0 ++ t) = parseNatList t := by
  induction j with
  | zero => rfl
  | succ j ih =>
    rw [List.replicate_succ, List.cons_append]
    exact ih

theorem parseNatChars_padZeros (k : ℕ) (s : Str) :
    parseNatChars (padZeros k s) = parseNatChars s := by
  rw [padZeros, parseNatChars, List.map_append]
  have hz : (List.replicate (k - s.length) '0').map digitVal
      = List.replicate (k - s.length) 0 := by
    rw [List.map_replicate]
    rfl
  rw [hz, parseNatList_replicate_zero]
  rfl

theorem padZeros_length (k : ℕ) (s : Str) (h : s.length ≤ k) :
    (padZeros k s).length = k := by
  rw [padZeros, List.length_append, List.length_replicate]
  omega

theorem natDigits_length_le (n k : ℕ) (hk : 1 ≤ k) (h : n < 10 ^ k) :
    (natDigits n).length ≤ k := by
  rw [natDigits]
  by_cases hn : n = 0
  · rw [if_pos hn]; simpa using hk
  · rw [if_neg hn, List.length_reverse, List.length_map]
    exact natToDigitsRev_length n n k (le_refl n) h

theorem isDig_ne (c : Char) (h : isDig c = true) :
    c ≠ '-' ∧ c ≠ '+' ∧ c ≠ '.' := by
  refine ⟨?_, ?_, ?_⟩ <;> rintro rfl <;> exact absurd h (by decide)

theorem splitOnChar_not_mem (sep : Char) :
    ∀ l : Str, sep ∉ l → splitOnChar sep l = [l] := by
  intro l
  induction l with
  | nil => intro _; rfl
  | cons c r ih =>
    intro h
    have hc : c ≠ sep := fun hcs => h (hcs ▸ List.mem_cons_self c r)
    have hr : sep ∉ r := fun hm => h (List.mem_cons_of_mem c hm)
    rw [splitOnChar, if_neg hc, ih hr]

theorem splitOnChar_append (sep : Char) :
    ∀ a b : Str, sep ∉ a →
      splitOnChar sep (a ++ sep :: b) = a :: splitOnChar sep b := by
  intro a
  induction a with
  | nil =>
    intro b _
    rw [List.nil_append, splitOnChar, if_pos rfl]
  | cons c r ih =>
    intro b h
    have hc : c ≠ sep := fun hcs => h (hcs ▸ List.mem_cons_self c r)
    have hr : sep ∉ r := fun hm => h (List.mem_cons_of_mem c hm)
    rw [List.cons_append, splitOnChar, if_neg hc, ih b hr]

theorem parseUnsigned_eval (A B : Str) (hA : A ≠ [])
    (hdA : ∀ c ∈ A, isDig c = true) (hdB : ∀ c ∈ B, isDig c = true) :
    parseUnsigned (A ++ '.' :: B)
      = some ((parseNatChars A : ℚ) + (parseNatChars B : ℚ) / 10 ^ B.length) := by
  have hdotA : '.' ∉ A := fun hm => (isDig_ne '.' (hdA '.' hm)).2.2 rfl
  have hdotB : '.' ∉ B := fun hm => (isDig_ne '.' (hdB '.' hm)).2.2 rfl
  rw [parseUnsigned, splitOnChar_append '.' A B hdotA, splitOnChar_not_mem '.' B hdotB]
  dsimp only
  rw [if_pos]
  refine ⟨by simp [hA], List.all_eq_true.mpr hdA, List.all_eq_true.mpr hdB⟩

theorem pyFloat?_eval (A B : Str) (hA : A ≠ [])
    (hdA : ∀ c ∈ A, isDig c = true) (hdB : ∀ c ∈ B, isDig c = true) :
    pyFloat? (A ++ '.' :: B)
      = some ((parseNatChars A : ℚ) + (parseNatChars B : ℚ) / 10 ^ B.length) := by
  cases A with
  | nil => exact absurd rfl hA
  | cons c A2 =>
    have hc := hdA c (List.mem_cons_self c A2)
    rw [List.cons_append, pyFloat?, if_neg (isDig_ne c hc).1, if_neg (isDig_ne c hc).2.1,
        ← List.cons_append]
    exact parseUnsigned_eval (c :: A2) B hA hdA hdB

theorem natAbs_div_den_pos (q : ℚ) (h : ¬ q < 0) :
    ((q.num.natAbs : ℚ)) / (q.den : ℚ) = q := by
  have hnum : 0 ≤ q.num := Rat.num_nonneg.mpr (le_of_not_lt h)
  have hcast : ((q.num.natAbs : ℚ)) = ((q.num : ℤ) : ℚ) := by
    have habs : |q.num| = q.num := abs_of_nonneg hnum
    rw [Int.cast_natAbs, habs]
  rw [hcast]
  exact Rat.num_div_den q

theorem natAbs_div_den_neg (q : ℚ) (h : q < 0) :
    -(((q.num.natAbs : ℚ)) / (q.den : ℚ)) = q := by
  have hnum : q.num ≤ 0 := le_of_lt (Rat.num_neg.mpr h)
  have hcast : ((q.num.natAbs : ℚ)) = -((q.num : ℤ) : ℚ) := by
    have habs : |q.num| = -q.num := abs_of_nonpos hnum
    rw [Int.cast_natAbs, habs, Int.cast_neg]
  rw [hcast, neg_div, neg_neg]
  exact Rat.num_div_den q

theorem scaled_value (n d k : ℕ) (hd : 0 < d) (hdvd : d ∣ 10 ^ k) :
    ((n * 10 ^ k / d / 10 ^ k : ℕ) : ℚ) + ((n * 10 ^ k / d % 10 ^ k : ℕ) : ℚ) / 10 ^ k
      = (n : ℚ) / (d : ℚ) := by
  have hp : (0:ℚ) < 10 ^ k := by positivity
  have hdq : (0:ℚ) < (d : ℚ) := by exact_mod_cast hd
  have hmul : n * 10 ^ k / d * d = n * 10 ^ k :=
    Nat.div_mul_cancel (Dvd.dvd.mul_left hdvd n)
  have hdm : 10 ^ k * (n * 10 ^ k / d / 10 ^ k) + n * 10 ^ k / d % 10 ^ k
      = n * 10 ^ k / d := Nat.div_add_mod (n * 10 ^ k / d) (10 ^ k)
  have h1 : (10:ℚ) ^ k * ((n * 10 ^ k / d / 10 ^ k : ℕ) : ℚ)
      + ((n * 10 ^ k / d % 10 ^ k : ℕ) : ℚ) = ((n * 10 ^ k / d : ℕ) : ℚ) := by
    exact_mod_cast hdm
  have h2 : ((n * 10 ^ k / d : ℕ) : ℚ) * (d : ℚ) = (n : ℚ) * 10 ^ k := by
    exact_mod_cast hmul
  have key : ((n * 10 ^ k / d / 10 ^ k : ℕ) : ℚ)
      + ((n * 10 ^ k / d % 10 ^ k : ℕ) : ℚ) / 10 ^ k
      = ((n * 10 ^ k / d : ℕ) : ℚ) / 10 ^ k := by
    rw [eq_div_iff (ne_of_gt hp), add_mul, div_mul_cancel₀ _ (ne_of_gt hp)]
    linarith [h1]
  rw [key, div_eq_div_iff (ne_of_gt hp) (ne_of_gt hdq)]
  linarith [h2]

theorem pyFloat?_neg (X : Str) :
    pyFloat? ('-' :: X) = (parseUnsigned X).map (fun q => -q) := rfl

theorem pyFloat_floatRepr (q : ℚ) (hdec : 10 ^ q.den % q.den = 0) :
    pyFloat? (floatRepr q) = some q := by
  cases hdk : decExp q.den with
  | none =>
    exfalso
    rw [decExp, List.find?_eq_none] at hdk
    have hmem : q.den ∈ List.range (q.den + 1) := List.mem_range.mpr (by omega)
    have hcontra := hdk q.den hmem
    simp [hdec] at hcontra
  | some k =>
    have hk : 10 ^ k % q.den = 0 := by
      rw [decExp] at hdk
      have := List.find?_some hdk
      simpa using this
    simp only [floatRepr, hdk]
    by_cases hk0 : k = 0
    · rw [if_pos hk0]
      have hd1 : q.den = 1 :=
        Nat.dvd_one.mp (Nat.dvd_of_mod_eq_zero (by simpa [hk0] using hk))
      have hsc : q.num.natAbs * 10 ^ k / q.den = q.num.natAbs := by
        rw [hk0, hd1]; simp
      rw [hsc]
      have h0 : parseNatChars ['0'] = 0 := by decide
      by_cases hq : q < 0
      · rw [if_pos hq]
        have hshape : ((['-'] ++ natDigits q.num.natAbs) ++ ['.', '0'])
            = '-' :: (natDigits q.num.natAbs ++ '.' :: ['0']) := by simp
        rw [hshape, pyFloat?_neg,
            parseUnsigned_eval (natDigits q.num.natAbs) ['0'] (natDigits_ne_nil _)
              (natDigits_all_isDig _) (by decide), Option.map_some']
        congr 1
        rw [parseNatChars_natDigits, h0]
        have hfin := natAbs_div_den_neg q hq
        rw [hd1, Nat.cast_one, div_one] at hfin
        simpa using hfin
      · rw [if_neg hq]
        have hshape : ((([] : Str) ++ natDigits q.num.natAbs) ++ ['.', '0'])
            = natDigits q.num.natAbs ++ '.' :: ['0'] := by simp
        rw [hshape,
            pyFloat?_eval (natDigits q.num.natAbs) ['0'] (natDigits_ne_nil _)
              (natDigits_all_isDig _) (by decide)]
        congr 1
        rw [parseNatChars_natDigits, h0]
        have hfin := natAbs_div_den_pos q hq
        rw [hd1, Nat.cast_one, div_one] at hfin
        simpa using hfin
    · rw [if_neg hk0]
      have hk1 : 1 ≤ k := by omega
      have hdvd : q.den ∣ 10 ^ k := Nat.dvd_of_mod_eq_zero hk
      have hBdig : ∀ c ∈ padZeros k (natDigits (q.num.natAbs * 10 ^ k / q.den % 10 ^ k)),
          isDig c = true := by
        intro c hc
        rw [padZeros] at hc
        rcases List.mem_append.mp hc with h1 | h2
        · rw [List.eq_of_mem_replicate h1]; decide
        · exact natDigits_all_isDig _ c h2
      have hBlen : (padZeros k (natDigits (q.num.natAbs * 10 ^ k / q.den % 10 ^ k))).length
          = k := by
        refine padZeros_length k _ ?_
        exact natDigits_length_le _ k hk1 (Nat.mod_lt _ (by positivity))
      have hvalue : ((parseNatChars (natDigits (q.num.natAbs * 10 ^ k / q.den / 10 ^ k)) : ℕ) : ℚ)
          + ((parseNatChars (padZeros k (natDigits (q.num.natAbs * 10 ^ k / q.den % 10 ^ k))) : ℕ) : ℚ)
            / 10 ^ (padZeros k (natDigits (q.num.natAbs * 10 ^ k / q.den % 10 ^ k))).length
          = ((q.num.natAbs : ℚ)) / ((q.den : ℕ) : ℚ) := by
        rw [hBlen, parseNatChars_natDigits, parseNatChars_padZeros, parseNatChars_natDigits]
        exact scaled_value q.num.natAbs q.den k q.den_pos hdvd
      by_cases hq : q < 0
      · rw [if_pos hq]
        have hshape : ((['-'] ++ natDigits (q.num.natAbs * 10 ^ k / q.den / 10 ^ k))
              ++ '.' :: padZeros k (natDigits (q.num.natAbs * 10 ^ k / q.den % 10 ^ k)))
            = '-' :: (natDigits (q.num.natAbs * 10 ^ k / q.den / 10 ^ k)
              ++ '.' :: padZeros k (natDigits (q.num.natAbs * 10 ^ k / q.den % 10 ^ k))) := by
          simp
        rw [hshape, pyFloat?_neg,
            parseUnsigned_eval _ _ (natDigits_ne_nil _) (natDigits_all_isDig _) hBdig,
            Option.map_some']
        congr 1
        rw [hvalue]
        exact natAbs_div_den_neg q hq
      · rw [if_neg hq]
        have hshape : ((([] : Str) ++ natDigits (q.num.natAbs * 10 ^ k / q.den / 10 ^ k))
              ++ '.' :: padZeros k (natDigits (q.num.natAbs * 10 ^ k / q.den % 10 ^ k)))
            = natDigits (q.num.natAbs * 10 ^ k / q.den / 10 ^ k)
              ++ '.' :: padZeros k (natDigits (q.num.natAbs * 10 ^ k / q.den % 10 ^ k)) := by
          simp
        rw [hshape,
            pyFloat?_eval _ _ (natDigits_ne_nil _) (natDigits_all_isDig _) hBdig]
        congr 1
        rw [hvalue]
        exact natAbs_div_den_pos q hq

theorem floatRepr_ne_nil (q : ℚ) : floatRepr q ≠ [] := by
  simp only [floatRepr]
  split
  · split
    · simp
    · simp
  · simp [natDigits_ne_nil]

theorem sign_digits_ne_None (sign A t : Str) (hsign : sign = [] ∨ sign = ['-'])
    (hA : A ≠ []) (hdA : ∀ c ∈ A, isDig c = true) :
    (sign ++ A) ++ t ≠ "None".data := by
  intro h
  rcases hsign with hs | hs
  · subst hs
    rw [List.nil_append] at h
    cases A with
    | nil => exact hA rfl
    | cons c cs =>
      rw [List.cons_append] at h
      have hc : c = 'N' := (List.cons.inj h).1
      have hd := hdA c (List.mem_cons_self c cs)
      rw [hc] at hd
      exact absurd hd (by decide)
  · subst hs
    rw [List.cons_append, List.nil_append, List.cons_append] at h
    have hc : '-' = 'N' := (List.cons.inj h).1
    exact absurd hc (by decide)

theorem floatRepr_ne_None (q : ℚ) : floatRepr q ≠ "None".data := by
  have hsign : (if q < 0 then (['-'] : Str) else []) = [] ∨
      (if q < 0 then (['-'] : Str) else []) = ['-'] := by
    by_cases hq : q < 0
    · right; rw [if_pos hq]
    · left; rw [if_neg hq]
  simp only [floatRepr]
  split
  · split
    · exact sign_digits_ne_None _ _ _ hsign (natDigits_ne_nil _) (natDigits_all_isDig _)
    · exact sign_digits_ne_None _ _ _ hsign (natDigits_ne_nil _) (natDigits_all_isDig _)
  · intro h
    rw [← List.append_nil ((if q < 0 then (['-'] : Str) else []) ++ natDigits _)] at h
    exact sign_digits_ne_None _ _ _ hsign (natDigits_ne_nil _) (natDigits_all_isDig _) h

/-- Decidable form of "this price is a decimal rational" (every float is:
a dyadic denominator divides a power of ten). -/
def decPriceB : Option ℚ → Bool
  | Option.none => true
  | some q => 10 ^ q.den % q.den == 0

theorem parsePrecioField_serPrecio (p : Option ℚ) (hdec : decPriceB p = true) :
    parsePrecioField (serPrecio p) = p := by
  cases p with
  | none => rfl
  | some q =>
    rw [serPrecio, parsePrecioField, if_neg]
    · exact pyFloat_floatRepr q (by simpa [decPriceB] using hdec)
    · push_neg
      exact ⟨floatRepr_ne_nil q, floatRepr_ne_None q⟩

theorem parseMonField_serMon (m : Option Str) (hm : m ≠ some []) :
    parseMonField (serMon m) = m := by
  cases m with
  | none => rfl
  | some s =>
    rw [serMon, parseMonField, if_neg]
    intro hs
    exact hm (by rw [hs])

theorem updateAssoc_fresh {β : Type} (m : List (Str × β)) (k : Str) (v : β)
    (h : k ∉ m.map Prod.fst) : updateAssoc m k v = m ++ [(k, v)] := by
  rw [updateAssoc, if_neg]
  intro hany
  rw [List.any_eq_true] at hany
  obtain ⟨p, hp, hpk⟩ := hany
  exact h (List.mem_map.mpr ⟨p, hp, of_decide_eq_true hpk⟩)

theorem cargar_fold (regs : List Reg) :
    (regs.map Reg.id).Nodup →
    (∀ r ∈ regs, decPriceB r.precio = true) →
    (∀ r ∈ regs, r.moneda ≠ some []) →
    ∀ data : List (Str × SnapVal),
      (∀ r ∈ regs, r.id ∉ data.map Prod.fst) →
      (regs.map (fun r => [r.id, serPrecio r.precio, serMon r.moneda])).foldl
          (fun data row =>
            updateAssoc data (row.getD 0 [])
              (parsePrecioField (row.getD 1 []), parseMonField (row.getD 2 []))) data
        = data ++ regs.map (fun r => (r.id, (r.precio, r.moneda))) := by
  induction regs with
  | nil =>
    intro _ _ _ data _
    simp
  | cons r rest ih =>
    intro hids hdec hmon data hfresh
    rw [List.map_cons, List.foldl_cons]
    have hstep : updateAssoc data
          (([r.id, serPrecio r.precio, serMon r.moneda].getD 0 []))
          (parsePrecioField ([r.id, serPrecio r.precio, serMon r.moneda].getD 1 []),
           parseMonField ([r.id, serPrecio r.precio, serMon r.moneda].getD 2 []))
        = data ++ [(r.id, (r.precio, r.moneda))] := by
      show updateAssoc data r.id
          (parsePrecioField (serPrecio r.precio), parseMonField (serMon r.moneda))
        = data ++ [(r.id, (r.precio, r.moneda))]
      rw [parsePrecioField_serPrecio r.precio (hdec r (List.mem_cons_self r rest)),
          parseMonField_serMon r.moneda (hmon r (List.mem_cons_self r rest))]
      exact updateAssoc_fresh data r.id _ (hfresh r (List.mem_cons_self r rest))
    rw [hstep]
    have hidr : r.id ∉ rest.map Reg.id := by
      rw [List.map_cons, List.nodup_cons] at hids
      exact hids.1
    have hrec := ih (by rw [List.map_cons, List.nodup_cons] at hids; exact hids.2)
      (fun x hx => hdec x (List.mem_cons_of_mem r hx))
      (fun x hx => hmon x (List.mem_cons_of_mem r hx))
      (data ++ [(r.id, (r.precio, r.moneda))])
      (by
        intro x hx hmem
        rw [List.map_append, List.mem_append] at hmem
        rcases hmem with h1 | h2
        · exact hfresh x (List.mem_cons_of_mem r hx) h1
        · have : x.id = r.id := by simpa using h2
          exact hidr (this ▸ List.mem_map.mpr ⟨x, hx, rfl⟩))
    rw [hrec, List.map_cons]
    simp

/-- C10: saving a record list with `guardar_snapshot` and re-loading it
with `cargar_snapshot` yields exactly the map from each id to its
(price, currency), provided the ids are distinct and non-empty, the
prices are decimal rationals (as every float is) or `None`, and the
currencies are non-empty strings or `None`; loading with no snapshot file
yields the empty map. -/
theorem c10_snapshot_roundtrip (regs : List Reg)
    (hids : (regs.map Reg.id).Nodup)
    (hdec : ∀ r ∈ regs, decPriceB r.precio = true)
    (hmon : ∀ r ∈ regs, r.moneda ≠ some []) :
    cargarSnapshot (some (guardarSnapshot regs))
        = regs.map (fun r => (r.id, (r.precio, r.moneda))) ∧
    cargarSnapshot Option.none = [] := by
  constructor
  · rw [cargarSnapshot, guardarSnapshot]
    have hdrop : ((["ID".data, "Precio".data, "Moneda".data] ::
        regs.map (fun r => [r.id, serPrecio r.precio, serMon r.moneda])).drop 1)
        = regs.map (fun r => [r.id, serPrecio r.precio, serMon r.moneda]) := rfl
    rw [hdrop, cargar_fold regs hids hdec hmon [] (by simp)]
    rfl
  · rfl

def regsC10 : List Reg :=
  [⟨"A1".data, some 100, some "USD".data⟩, ⟨"B2".data, Option.none, Option.none⟩]

/-- C10 witness: the round trip evaluated at a concrete two-record list
(one priced in USD, one with no price and no currency). -/
theorem c10_snapshot_roundtrip_witness :
    cargarSnapshot (some (guardarSnapshot regsC10))
        = regsC10.map (fun r => (r.id, (r.precio, r.moneda))) ∧
    cargarSnapshot Option.none = [] :=
  c10_snapshot_roundtrip regsC10 (by decide) (by decide) (by decide)

/-! ### C1 (continued): report production on a cold start -/

theorem updateAssoc_ne_nil {β : Type} (m : List (Str × β)) (k : Str) (v : β) :
    updateAssoc m k v ≠ [] := by
  rw [updateAssoc]
  split
  · rename_i hany
    intro h
    rw [List.map_eq_nil_iff] at h
    rw [h] at hany
    simp at hany
  · simp

theorem buildCurrMap_foldl_eq_nil (regs : List Reg) :
    ∀ m : List (Str × Reg),
      (regs.foldl (fun m r => if r.id ≠ [] then updateAssoc m r.id r else m) m = []
        ↔ (m = [] ∧ ∀ r ∈ regs, r.id = [])) := by
  induction regs with
  | nil => intro m; simp
  | cons r rest ih =>
    intro m
    rw [List.foldl_cons, ih (if r.id ≠ [] then updateAssoc m r.id r else m)]
    constructor
    · rintro ⟨hstep, hall⟩
      by_cases hr : r.id ≠ []
      · rw [if_pos hr] at hstep
        exact absurd hstep (updateAssoc_ne_nil m r.id r)
      · rw [if_neg hr] at hstep
        push_neg at hr
        refine ⟨hstep, ?_⟩
        intro x hx
        rcases List.mem_cons.mp hx with h1 | h2
        · rw [h1]; exact hr
        · exact hall x h2
    · rintro ⟨hm, hall⟩
      have hr : r.id = [] := hall r (List.mem_cons_self r rest)
      refine ⟨?_, fun x hx => hall x (List.mem_cons_of_mem r hx)⟩
      rw [if_neg (not_not_intro hr), hm]

theorem buildCurrMap_eq_nil_iff (regs : List Reg) :
    buildCurrMap regs = [] ↔ ∀ r ∈ regs, r.id = [] := by
  rw [buildCurrMap, buildCurrMap_foldl_eq_nil regs []]
  simp

theorem sortStr_eq_nil_iff (l : List Str) : sortStr l = [] ↔ l = [] := by
  constructor
  · intro h
    have hp := sortStr_perm l
    rw [h] at hp
    exact (hp.symm).eq_nil
  · intro h
    rw [h]
    rfl

/-- C1 (amended): on a cold start (no prior snapshot), a run that passes
the gate and extracts successfully produces a diff report IF AND ONLY IF
at least one record with a non-empty id was extracted (the run is
entry-free exactly when the extraction yields no ids at all); and any
report produced has empty price_up, price_down and removed_items, with
new_items listing exactly the distinct non-empty extracted ids. -/
theorem c1_cold_start_amended (hashFn : List ℕ → Str)
    (ed : File → Except Unit (List Reg)) (eh : File → Except Unit (List RegH1))
    (st : SourceState) (f : File) (regs : List Reg)
    (hsnap : st.snap = Option.none) (hok : ed f = Except.ok regs)
    (hproc : (decideShouldProcess hashFn st.hash (some f)).1 = true) :
    ((runFuente hashFn ed eh st (some f)).2.report = Option.none ↔
      ∀ r ∈ regs, r.id = []) ∧
    ∀ dl : DiffLists, (runFuente hashFn ed eh st (some f)).2.report = some dl →
      dl.up = [] ∧ dl.dn = [] ∧ dl.elim = [] ∧
      dl.nuevos.map ItemRow.id = sortStr ((buildCurrMap regs).map Prod.fst) ∧
      dl.nuevos ≠ [] := by
  cases hgate : decideShouldProcess hashFn st.hash (some f) with
  | mk b nh =>
    rw [hgate] at hproc
    have hb : b = true := hproc
    subst hb
    obtain ⟨h1, h2, h3, h4⟩ := cold_start_diffs regs
    have hrep : (runFuente hashFn ed eh st (some f)).2.report
        = if hayCambios ⟨(calcularDiffs [] regs).1, (calcularDiffs [] regs).2.1,
              (calcularDiffs [] regs).2.2.1, (calcularDiffs [] regs).2.2.2⟩ = true
          then some ⟨(calcularDiffs [] regs).1, (calcularDiffs [] regs).2.1,
              (calcularDiffs [] regs).2.2.1, (calcularDiffs [] regs).2.2.2⟩
          else Option.none := by
      simp only [runFuente, hgate, hok, hsnap]
      rfl
    have hnil_iff : (calcularDiffs [] regs).2.2.1 = [] ↔ ∀ r ∈ regs, r.id = [] := by
      constructor
      · intro hn
        have h4' := h4
        rw [hn] at h4'
        have hs : sortStr ((buildCurrMap regs).map Prod.fst) = [] :=
          h4'.symm.trans (List.map_nil)
        rw [sortStr_eq_nil_iff, List.map_eq_nil_iff] at hs
        exact (buildCurrMap_eq_nil_iff regs).mp hs
      · intro hall
        have hb0 : buildCurrMap regs = [] := (buildCurrMap_eq_nil_iff regs).mpr hall
        show (nuevosIdsOf [] regs).map (nuevoRow (buildCurrMap regs)) = []
        have hni : nuevosIdsOf [] regs = [] := by
          rw [nuevosIdsOf, currIdsOf, hb0]
          rfl
        rw [hni]
        rfl
    have hcam_iff : (hayCambios ⟨(calcularDiffs [] regs).1, (calcularDiffs [] regs).2.1,
          (calcularDiffs [] regs).2.2.1, (calcularDiffs [] regs).2.2.2⟩ = true)
        ↔ (calcularDiffs [] regs).2.2.1 ≠ [] := by
      rw [hayCambios]
      dsimp only
      rw [h1, h2, h3]
      constructor
      · intro hc hn
        rw [hn] at hc
        simp at hc
      · intro hn
        cases hcc : (calcularDiffs [] regs).2.2.1 with
        | nil => exact absurd hcc hn
        | cons a t => rfl
    constructor
    · rw [hrep]
      by_cases hcam : hayCambios ⟨(calcularDiffs [] regs).1, (calcularDiffs [] regs).2.1,
          (calcularDiffs [] regs).2.2.1, (calcularDiffs [] regs).2.2.2⟩ = true
      · rw [if_pos hcam]
        constructor
        · intro h
          exact absurd h (by simp)
        · intro hall
          exact absurd (hnil_iff.mpr hall) (hcam_iff.mp hcam)
      · rw [if_neg hcam]
        constructor
        · intro _
          refine hnil_iff.mp ?_
          by_contra hne
          exact hcam (hcam_iff.mpr hne)
        · intro _
          rfl
    · intro dl hdl
      rw [hrep] at hdl
      by_cases hcam : hayCambios ⟨(calcularDiffs [] regs).1, (calcularDiffs [] regs).2.1,
          (calcularDiffs [] regs).2.2.1, (calcularDiffs [] regs).2.2.2⟩ = true
      · rw [if_pos hcam] at hdl
        have hdleq := (Option.some.inj hdl).symm
        subst hdleq
        exact ⟨h1, h2, h3, h4, hcam_iff.mp hcam⟩
      · rw [if_neg hcam] at hdl
        exact absurd hdl (by simp)

/-- C1 witness: on the concrete cold start that extracts the single
record `A1`, the amended theorem yields that a report IS produced (the
report is not `None`) and that the concrete report has empty up/down/
removed lists and `A1` as its sole new item. -/
theorem c1_cold_start_amended_witness :
    ¬ ((runFuente hashC1 edC1 ehC1 ⟨Option.none, Option.none⟩ (some ⟨[0]⟩)).2.report
        = Option.none) ∧
    ((⟨[], [], [⟨"A1".data, some "USD".data, some 100⟩], []⟩ : DiffLists).up = [] ∧
     (⟨[], [], [⟨"A1".data, some "USD".data, some 100⟩], []⟩ : DiffLists).dn = [] ∧
     (⟨[], [], [⟨"A1".data, some "USD".data, some 100⟩], []⟩ : DiffLists).elim = [] ∧
     (⟨[], [], [⟨"A1".data, some "USD".data, some 100⟩], []⟩ : DiffLists).nuevos.map
        ItemRow.id
        = sortStr ((buildCurrMap [⟨"A1".data, some 100, some "USD".data⟩]).map Prod.fst) ∧
     (⟨[], [], [⟨"A1".data, some "USD".data, some 100⟩], []⟩ : DiffLists).nuevos ≠ []) := by
  constructor
  · intro h
    have hall := ((c1_cold_start_amended hashC1 edC1 ehC1 ⟨Option.none, Option.none⟩ ⟨[0]⟩
        [⟨"A1".data, some 100, some "USD".data⟩] rfl rfl (by decide)).1).mp h
    have hid := hall ⟨"A1".data, some 100, some "USD".data⟩ (by decide)
    exact absurd hid (by decide)
  · exact (c1_cold_start_amended hashC1 edC1 ehC1 ⟨Option.none, Option.none⟩ ⟨[0]⟩
      [⟨"A1".data, some 100, some "USD".data⟩] rfl rfl (by decide)).2
      ⟨[], [], [⟨"A1".data, some "USD".data, some 100⟩], []⟩ (by decide)
